import Mathlib

/-!
# Triton HTTP: request parser, dispatch and connection handler

A shallow embedding of `pkg/tritonhttp/request.go` and `pkg/tritonhttp/server.go`.

Conventions of the embedding.

* A Go `string` is a Lean `String`; the operations of package `strings` that the code uses are
  written on the character list.  Every separator the code splits on (`' '`, `':'`, `'/'`) is
  ASCII, so splitting by character and splitting by byte agree on UTF-8 text.
* A Go `error` result is an `Option Error` (`none` is `nil`); a nilable pointer is an `Option`.
* A Go `map[string]string` is an association list with at most one entry per key.
* The buffered reader is the list of results its successive `ReadLine` calls will deliver.
* The file system and the clock are explicit arguments (`Env`).
-/

namespace TritonHTTP

/-! ## Package `strings` -/

/-- Cut a character list at the first occurrence of `sep`: the text before it and the text
after it, or `none` when `sep` does not occur (`strings.Index` returning `-1`). -/
def cutAt (sep : Char) : List Char → Option (List Char × List Char)
  | [] => none
  | c :: cs =>
    if c = sep then some ([], cs)
    else match cutAt sep cs with
      | none => none
      | some (a, b) => some (c :: a, b)

/-- The loop of `strings.genSplit` for a one-character separator: at most `n` pieces, the last
one being the unsplit remainder. -/
def splitNChars (sep : Char) : Nat → List Char → List (List Char)
  | 0, _ => []
  | 1, s => [s]
  | n + 2, s =>
    match cutAt sep s with
    | none => [s]
    | some (a, b) => a :: splitNChars sep (n + 1) b

/-- Go `strings.SplitN(s, sep, n)` for a one-character `sep` and `n ≥ 0`. -/
def SplitN (s : String) (sep : Char) (n : Nat) : List String :=
  (splitNChars sep n s.data).map String.mk

/-- Go `strings.HasPrefix`. -/
def HasPrefix (s pre : String) : Bool := pre.data.isPrefixOf s.data

/-- Go `strings.HasSuffix`. -/
def HasSuffix (s suf : String) : Bool := suf.data.isSuffixOf s.data

/-- Go `strings.Contains(s, string(c))` for a one-character substring. -/
def Contains (s : String) (c : Char) : Bool := s.data.contains c

/-- Go `unicode.IsSpace`: the Latin-1 spaces and the code points with the White_Space
property. -/
def isSpace (c : Char) : Bool :=
  let n := c.toNat
  n = 0x20 || (0x09 ≤ n && n ≤ 0x0D) || n = 0x85 || n = 0xA0 || n = 0x1680 ||
    (0x2000 ≤ n && n ≤ 0x200A) || n = 0x2028 || n = 0x2029 || n = 0x202F || n = 0x205F ||
    n = 0x3000

/-- Go `strings.TrimSpace`: drop leading and trailing white space. -/
def TrimSpace (s : String) : String :=
  ⟨((s.data.dropWhile isSpace).reverse.dropWhile isSpace).reverse⟩

/-! ## Errors -/

/-- The `error` values that flow through the package.  The first three come from the line
source, the others are the `fmt.Errorf` values built in `request.go`. -/
inductive Error where
  /-- `io.EOF`. -/
  | eof
  /-- A `net.Error`; the flag is the result of its `Timeout()` method. -/
  | net (timeout : Bool)
  /-- Any other I/O error. -/
  | other (msg : String)
  /-- "could not parse the request line, wrong fields %v". -/
  | wrongFields (fields : List String)
  /-- "Invalid Method: %v". -/
  | invalidMethod (method : String)
  /-- "URL doesn't start with a slash". -/
  | urlNoSlash
  /-- "missing URL". -/
  | missingURL
  /-- "Invalid Proto: %v". -/
  | invalidProto (proto : String)
  /-- "the key of header is empty". -/
  | emptyKey
  /-- "Invalid format of key". -/
  | invalidKey
  /-- "No Host Header". -/
  | noHost
  deriving DecidableEq

/-- Go `errors.Is(err, io.EOF)`. -/
def Error.isEOF : Error → Bool
  | .eof => true
  | _ => false

/-- Go `err, ok := err.(net.Error); ok && err.Timeout()`. -/
def Error.isTimeout : Error → Bool
  | .net t => t
  | _ => false

/-! ## Maps -/

/-- A Go `map[string]string`. -/
abbrev HeaderMap := List (String × String)

/-- Go `m[k] = v`: overwrite the entry of `k` or add one. -/
def HeaderMap.set : HeaderMap → String → String → HeaderMap
  | [], k, v => [(k, v)]
  | (k', v') :: m, k, v => if k' = k then (k, v) :: m else (k', v') :: HeaderMap.set m k v

/-- Go `v, ok := m[k]`. -/
def HeaderMap.get (m : HeaderMap) (k : String) : Option String :=
  (m.find? (fun e => e.1 = k)).map Prod.snd

/-- The key set of the map. -/
def HeaderMap.keys (m : HeaderMap) : List String := m.map Prod.fst

/-! ## `request.go` -/

/-- The `Request` struct. -/
structure Request where
  Method : String := ""
  URL : String := ""
  Proto : String := ""
  Header : HeaderMap := []
  Host : String := ""
  Close : Bool := false
  deriving DecidableEq

/-- Go `parseRequestLine`: the fields and the error. -/
def parseRequestLine (line : String) : List String × Option Error :=
  let fields := SplitN line ' ' 3
  if fields.length ≠ 3 then (fields, some (.wrongFields fields)) else (fields, none)

/-- Go `ValidateMethod`. -/
def ValidateMethod (method : String) : Option Error :=
  if method = "GET" then none else some (.invalidMethod method)

/-- Go `ValidateURL`. -/
def ValidateURL (url : String) : Option Error :=
  if !HasPrefix url "/" then some .urlNoSlash
  else if url = "" then some .missingURL
  else none

/-- Go `ValidateProto`. -/
def ValidateProto (proto : String) : Option Error :=
  if proto = "HTTP/1.1" then none else some (.invalidProto proto)

/-- Go `parseHeaderLine`: the fields and the error. -/
def parseHeaderLine (header : String) : List String × Option Error :=
  let fields := SplitN header ':' 2
  if fields.length ≠ 2 then (fields, some (.wrongFields fields))
  else if fields.getD 0 "" = "" then (fields, some .emptyKey)
  else if Contains (fields.getD 0 "") ' ' then (fields, some .invalidKey)
  else (fields, none)

/-- One result of `ReadLine`: the text it returns (the line without its CRLF, or on an error
the bytes read so far) and the error. -/
structure LineResult where
  line : String
  err : Option Error := none
  deriving DecidableEq

/-- The state of the buffered reader: the results of its future `ReadLine` calls, in order.
An exhausted reader is at end of stream. -/
abbrev Reader := List LineResult

/-- Modelled from the spec: the line reader `ReadLine`, which is not part of the sources at
hand ("yields one textual line per call, stripped of the CRLF terminator; signals end-of-stream
or I/O error").  It returns the text, the error and the reader left. -/
def ReadLine : Reader → String × Option Error × Reader
  | [] => ("", some .eof, [])
  | r :: rest => (r.line, r.err, rest)

/-- What `ReadRequest` returns, together with the reader it leaves behind. -/
structure ReadResult where
  req : Option Request
  bytesReceived : Bool
  err : Option Error
  rest : Reader
  deriving DecidableEq

/-- The header loop of `ReadRequest` (the `for` of lines 122-151) and the code after it.  The
arguments are the variables live on entry of an iteration: `byteR`, `req`, `headerMap`,
`hasHost`; the match on the reader is the call `ReadLine(br)`. -/
def readHeaders (canon : String → String) (byteR : Bool) :
    Request → HeaderMap → Bool → Reader → ReadResult
  | _, _, _, [] => ⟨none, byteR, some .eof, []⟩
  | req, headerMap, hasHost, r :: rest =>
    match r.err with
    | some e => ⟨none, byteR, some e, rest⟩
    | none =>
      if r.line = "" then
        let req := { req with Header := headerMap }
        if !hasHost then ⟨none, byteR, some .noHost, rest⟩ else ⟨some req, byteR, none, rest⟩
      else
        match parseHeaderLine r.line with
        | (_, some e) => ⟨none, byteR, some e, rest⟩
        | (header, none) =>
          let key := canon (header.getD 0 "")
          let val := TrimSpace (header.getD 1 "")
          if key = "Host" then
            readHeaders canon byteR { req with Host := val } headerMap true rest
          else if key = "Connection" ∧ val = "close" then
            readHeaders canon byteR { req with Close := true } headerMap hasHost rest
          else
            readHeaders canon byteR req (headerMap.set key val) hasHost rest

/-- Go `ReadRequest`.  `canon` is `CanonicalHeaderKey`, whose source is not at hand; it is kept
abstract. -/
def ReadRequest (canon : String → String) (br : Reader) : ReadResult :=
  match ReadLine br with
  | (line, err, br) =>
    let byteR := if line ≠ "" then true else false
    match err with
    | some e => ⟨none, byteR, some e, br⟩
    | none =>
      match parseRequestLine line with
      | (_, some e) => ⟨none, byteR, some e, br⟩
      | (startLine, none) =>
        let req : Request :=
          { Method := startLine.getD 0 "", URL := startLine.getD 1 "", Proto := startLine.getD 2 "" }
        match ValidateMethod req.Method with
        | some e => ⟨none, byteR, some e, br⟩
        | none =>
          match ValidateURL req.URL with
          | some e => ⟨none, byteR, some e, br⟩
          | none =>
            match ValidateProto req.Proto with
            | some e => ⟨none, byteR, some e, br⟩
            | none => readHeaders canon byteR req [] false br

/-- Modelled from the spec: `CanonicalHeaderKey`, which is not part of the sources at hand
("canonical capitalization"): the first letter and every letter after a hyphen in upper case,
the other letters in lower case.  It serves concrete runs only; the theorems hold for every
canonicalization. -/
def CanonicalHeaderKey (s : String) : String :=
  ⟨(s.data.foldl (fun (acc : List Char × Bool) c =>
      ((if acc.2 then c.toUpper else c.toLower) :: acc.1, c = '-')) ([], true)).1.reverse⟩

/-! ## Package `path/filepath` (Unix) -/

/-- Split a character list at every `sep` (`strings.Split` with a one-character separator);
the result is never empty. -/
def splitAll (sep : Char) : List Char → List (List Char)
  | [] => [[]]
  | c :: cs =>
    if c = sep then [] :: splitAll sep cs
    else match splitAll sep cs with
      | [] => [[c]]
      | w :: ws => (c :: w) :: ws

/-- Join elements with `/` (`strings.Join(elems, "/")`). -/
def joinSlash : List (List Char) → List Char
  | [] => []
  | [w] => w
  | w :: ws => w ++ '/' :: joinSlash ws

/-- One step of the loop of `filepath.Clean`, on the elements written so far (innermost
first): an empty element and `.` are skipped, `..` removes the last element when there is one
that is not itself `..`, is appended on a path that is not rooted, and is dropped on a rooted
one; any other element is appended. -/
def cleanStep (rooted : Bool) (out : List (List Char)) (el : List Char) : List (List Char) :=
  if el = [] ∨ el = ['.'] then out
  else if el = ['.', '.'] then
    match out with
    | top :: below => if top ≠ ['.', '.'] then below else el :: out
    | [] => if rooted then [] else [el]
  else el :: out

/-- Go `filepath.Clean`. -/
def Clean (path : String) : String :=
  if path = "" then "."
  else
    let rooted := HasPrefix path "/"
    let out := ((splitAll '/' path.data).foldl (cleanStep rooted) []).reverse
    if rooted then ⟨'/' :: joinSlash out⟩
    else if out = [] then "." else ⟨joinSlash out⟩

/-- Go `filepath.Join(a, b)`: the non-empty elements joined with `/` and cleaned. -/
def Join (a b : String) : String :=
  if a ≠ "" then Clean (a ++ "/" ++ b)
  else if b ≠ "" then Clean b
  else ""

/-- Whether the text `strings.Join(elems, "/")` is empty: the condition `bi < bl` of the loop
of `filepath.Rel` fails. -/
def restEmpty (elems : List (List Char)) : Bool := elems = [] ∨ elems = [[]]

/-- The tail of `filepath.Rel`, after the common leading elements: `base` and `targ` are the
elements of the two paths from the first differing one on.  With base elements left the result
goes up once per element and then down the target; otherwise it is the rest of the target. -/
def relFinish (base targ : List (List Char)) : String :=
  if !restEmpty base then
    ⟨joinSlash (base.map (fun _ => ['.', '.'])) ++
      (if !restEmpty targ then '/' :: joinSlash targ else [])⟩
  else ⟨joinSlash targ⟩

/-- The loop of `filepath.Rel` that positions both paths at their first differing elements;
`none` is the error "Rel: can't make ... relative to ...". -/
def relLoop : List (List Char) → List (List Char) → Option String
  | b :: bs, t :: ts =>
    if restEmpty (b :: bs) ∨ restEmpty (t :: ts) then some (relFinish (b :: bs) (t :: ts))
    else if b ≠ t then (if b = ['.', '.'] then none else some (relFinish (b :: bs) (t :: ts)))
    else relLoop bs ts
  | bs, ts => some (relFinish bs ts)

/-- Go `filepath.Rel(basepath, targpath)`: the relative path and whether it could be made
(`none` is the error, with which Go returns the empty string). -/
def Rel (basepath targpath : String) : Option String :=
  let base := Clean basepath
  let targ := Clean targpath
  if targ = base then some "."
  else
    let base := if base = "." then "" else base
    if HasPrefix base "/" ≠ HasPrefix targ "/" then none
    else relLoop (splitAll '/' base.data) (splitAll '/' targ.data)

/-- Go `filepath.Ext`: the suffix of the last element from its last dot on. -/
def Ext (path : String) : String :=
  let last := (path.data.reverse.takeWhile (fun c => c ≠ '/')).reverse
  if last.contains '.' then ⟨'.' :: (last.reverse.takeWhile (fun c => c ≠ '.')).reverse⟩ else ""

/-! ## `server.go` -/

/-- What `os.Stat` reports of a file: `IsDir()`, `Size()`, `ModTime()`. -/
structure FileInfo where
  isDir : Bool
  size : Int
  modTime : Nat
  deriving DecidableEq

/-- The result of `os.Stat`: the file information, an error for which `os.IsNotExist` holds,
or another error. -/
inductive StatResult where
  | ok (fi : FileInfo)
  | notExist
  | failed (msg : String)
  deriving DecidableEq

/-- The environment of one call: the file system as `os.Stat` sees it and `time.Now()`. -/
structure Env where
  stat : String → StatResult
  now : Nat

/-- The collaborators in the package whose sources are not at hand, kept abstract:
`CanonicalHeaderKey`, `FormatTime` and `MIMETypeByExtension`. -/
structure Util where
  canon : String → String
  FormatTime : Nat → String
  MIMETypeByExtension : String → String

/-- The `Server` struct. -/
structure Server where
  Addr : String := ""
  DocRoot : String := ""
  deriving DecidableEq

/-- Modelled from the spec: the `Response` struct, whose declaration is not part of the sources
at hand ("`protocolVersion`, `statusCode`, `headers`, `filePath`, `associatedRequest`
(nilable)"), with the field names `server.go` assigns to. -/
structure Response where
  Proto : String := ""
  StatusCode : Int := 0
  Header : HeaderMap := []
  Request : Option Request := none
  FilePath : String := ""
  deriving DecidableEq

/-- A run-time panic. -/
inductive Panic where
  /-- A nil pointer dereference. -/
  | nilDeref
  /-- The call `log.Panicln(err)`. -/
  | logPanic
  deriving DecidableEq

def resProto : String := "HTTP/1.1"
def statusOK : Int := 200
def statusBadReq : Int := 400
def statusNotFound : Int := 404

/-- Go `strconv.FormatInt(n, 10)`. -/
def FormatInt (n : Int) : String :=
  match n with
  | .ofNat m => ⟨Nat.toDigits 10 m⟩
  | .negSucc m => ⟨'-' :: Nat.toDigits 10 (m + 1)⟩

/-- Go `Response.HandleOK`. -/
def HandleOK (u : Util) (env : Env) (res : Response) (req : Option Request) (path : String) :
    Except Panic Response :=
  match env.stat path with
  | .ok fiInfo =>
    let okHeaderMap : HeaderMap := []
    let res := { res with Proto := resProto, StatusCode := statusOK, FilePath := path, Request := req }
    let okHeaderMap := okHeaderMap.set "Date" (u.FormatTime env.now)
    let okHeaderMap := okHeaderMap.set "Last-Modified" (u.FormatTime fiInfo.modTime)
    let okHeaderMap := okHeaderMap.set "Content-Type" (u.MIMETypeByExtension (Ext path))
    let okHeaderMap := okHeaderMap.set "Content-Length" (FormatInt fiInfo.size)
    match req with
    | none => .error .nilDeref
    | some r =>
      let okHeaderMap := if r.Close then okHeaderMap.set "Connection" "close" else okHeaderMap
      .ok { res with Header := okHeaderMap }
  | _ => .error .logPanic

/-- Go `Response.HandleBadRequest`. -/
def HandleBadRequest (u : Util) (env : Env) (res : Response) : Response :=
  let badReqHeaderMap : HeaderMap := []
  let res := { res with Proto := resProto, StatusCode := statusBadReq, FilePath := "", Request := none }
  let badReqHeaderMap := badReqHeaderMap.set "Date" (u.FormatTime env.now)
  let badReqHeaderMap := badReqHeaderMap.set "Connection" "close"
  { res with Header := badReqHeaderMap }

/-- Go `Response.HandleNotFound`. -/
def HandleNotFound (u : Util) (env : Env) (res : Response) (req : Option Request) :
    Except Panic Response :=
  let NotFoundHeaderMap : HeaderMap := []
  let res := { res with Proto := resProto, StatusCode := statusNotFound, FilePath := "", Request := req }
  let NotFoundHeaderMap := NotFoundHeaderMap.set "Date" (u.FormatTime env.now)
  match req with
  | none => .error .nilDeref
  | some r =>
    let NotFoundHeaderMap :=
      if r.Close then NotFoundHeaderMap.set "Connection" "close" else NotFoundHeaderMap
    .ok { res with Header := NotFoundHeaderMap }

/-- Go `Server.HandleGoodRequest`.  The request is passed by pointer and the function assigns
to its `URL`, so the result holds the response and the request as the call leaves it. -/
def HandleGoodRequest (u : Util) (env : Env) (s : Server) (req : Option Request) :
    Except Panic (Response × Request) :=
  let res : Response := {}
  match req with
  | none => .error .nilDeref
  | some req =>
    let req := if HasSuffix req.URL "/" then { req with URL := req.URL ++ "index.html" } else req
    let path := Clean (Join s.DocRoot req.URL)
    let rel := (Rel s.DocRoot path).getD ""
    if HasPrefix rel "../" then
      (HandleNotFound u env res (some req)).map (fun res => (res, req))
    else
      match env.stat path with
      | .ok f =>
        if f.isDir then (HandleNotFound u env res (some req)).map (fun res => (res, req))
        else (HandleOK u env res (some req) path).map (fun res => (res, req))
      | _ => (HandleNotFound u env res (some req)).map (fun res => (res, req))

/-- What the connection handler does to the connection: `res.Write(conn)`, with whether it
returned `nil`, and `conn.Close()`. -/
inductive Event where
  | write (res : Response) (ok : Bool)
  | close
  deriving DecidableEq

/-- The surroundings of one iteration of the loop of `HandleConnection`: the file system and
clock, whether `conn.SetReadDeadline` returns `nil`, and whether `res.Write` does. -/
structure Tick where
  env : Env
  deadlineOk : Bool := true
  writeOk : Bool := true

/-- How `HandleConnection` ends: it returns, or it panics; in both cases with the events so
far. -/
inductive Outcome where
  | returned (events : List Event)
  | panicked (events : List Event) (p : Panic)
  deriving DecidableEq

/-- Go `errors.Is(err, io.EOF)` on a possibly nil error. -/
def errIsEOF (err : Option Error) : Bool :=
  match err with
  | some e => e.isEOF
  | none => false

/-- Go `err, ok := err.(net.Error); ok && err.Timeout()` on a possibly nil error. -/
def errIsTimeout (err : Option Error) : Bool :=
  match err with
  | some e => e.isTimeout
  | none => false

/-- The `for` loop of `HandleConnection`, from iteration `i` on, with the reader and the events
so far.  The first argument bounds the number of iterations; `none` means the bound was
reached.  The messages of `log.Printf` and `fmt.Println` are not recorded. -/
def handleLoop (u : Util) (s : Server) (world : Nat → Tick) :
    Nat → Nat → Reader → List Event → Option Outcome
  | 0, _, _, _ => none
  | fuel + 1, i, reader, events =>
    let w := world i
    if !w.deadlineOk then some (.returned (events ++ [.close]))
    else
      let r := ReadRequest u.canon reader
      if errIsEOF r.err then some (.returned (events ++ [.close]))
      else if errIsTimeout r.err then
        if !r.bytesReceived then some (.returned (events ++ [.close]))
        else
          let res := HandleBadRequest u w.env {}
          some (.returned (events ++ [.write res w.writeOk, .close]))
      else if r.err ≠ none then
        let res := HandleBadRequest u w.env {}
        some (.returned (events ++ [.write res w.writeOk, .close]))
      else
        match HandleGoodRequest u w.env s r.req with
        | .error p => some (.panicked events p)
        | .ok (res, req) =>
          let events := events ++ [.write res w.writeOk]
          if req.Close then some (.returned (events ++ [.close]))
          else handleLoop u s world fuel (i + 1) r.rest events

/-- Go `Server.HandleConnection` on a connection whose reader will deliver `reader`.  Every
iteration that loops back has consumed a line, so `reader.length + 1` iterations suffice. -/
def HandleConnection (u : Util) (s : Server) (world : Nat → Tick) (reader : Reader) :
    Option Outcome :=
  handleLoop u s world (reader.length + 1) 0 reader []

/-! ## Notions of the specification -/

/-- The name of a header line: the text before its first colon. -/
def headerName (h : String) : String := ⟨h.data.takeWhile (fun c => c ≠ ':')⟩

/-- The value of a header line: the text after its first colon. -/
def headerValue (h : String) : String := ⟨(h.data.dropWhile (fun c => c ≠ ':')).drop 1⟩

/-- The header block of a request: the lines after the request line, up to the empty line. -/
def headerBlock (br : Reader) : List LineResult :=
  (br.drop 1).takeWhile (fun r => r.line ≠ "")

/-- The space-separated fields of a request line. -/
def spaceFields (line : String) : List String := (splitAll ' ' line.data).map String.mk

/-- A `Connection: close` header line. -/
def isConnectionClose (canon : String → String) (r : LineResult) : Prop :=
  canon (headerName r.line) = "Connection" ∧ TrimSpace (headerValue r.line) = "close"

/-- A header line the parser accepts: read without error, not the terminator, and
`parseHeaderLine` returns no error. -/
def acceptedHeader (r : LineResult) : Prop :=
  r.err = none ∧ r.line ≠ "" ∧ (parseHeaderLine r.line).2 = none

/-- A request line that passes `parseRequestLine` and the three validations. -/
def acceptedRequestLine (line : String) : Prop :=
  (parseRequestLine line).2 = none ∧
    ValidateMethod ((parseRequestLine line).1.getD 0 "") = none ∧
    ValidateURL ((parseRequestLine line).1.getD 1 "") = none ∧
    ValidateProto ((parseRequestLine line).1.getD 2 "") = none

instance (r : LineResult) : Decidable (acceptedHeader r) := by
  unfold acceptedHeader; infer_instance

instance (line : String) : Decidable (acceptedRequestLine line) := by
  unfold acceptedRequestLine; infer_instance

instance (canon : String → String) (r : LineResult) : Decidable (isConnectionClose canon r) := by
  unfold isConnectionClose; infer_instance

/-- Stand-ins for the abstract collaborators, for concrete runs; the theorems hold for every
`Util`. -/
def sampleUtil : Util :=
  { canon := CanonicalHeaderKey
    FormatTime := fun t => ⟨Nat.toDigits 10 t⟩
    MIMETypeByExtension := fun ext => if ext = ".html" then "text/html" else "application/octet-stream" }

/-- A file system for concrete runs: the files listed, each a regular file of five bytes, and
nothing else. -/
def sampleEnv (files : List String) : Env :=
  { stat := fun p => if p ∈ files then .ok ⟨false, 5, 0⟩ else .notExist
    now := 0 }

/-- Surroundings for concrete runs: no file exists, the deadline is armed and the write
succeeds in every iteration. -/
def sampleWorld : Nat → Tick := fun _ => { env := sampleEnv [] }

/-- The path `HandleGoodRequest` resolves a target to: the target, with `index.html` appended
when it ends in a slash, joined to the document root and cleaned. -/
def resolvedPath (s : Server) (target : String) : String :=
  Clean (Join s.DocRoot (if HasSuffix target "/" then target ++ "index.html" else target))

/-- A cleaned path lies inside the document root when it is the cleaned root or continues it
with a further element. -/
def insideRoot (docRoot path : String) : Bool :=
  let root := Clean docRoot
  path = root || (if root = "/" then HasPrefix path "/" else HasPrefix path (root ++ "/"))

/-- Go `Server.ValidateServer`.  The result is the error returned (`none` is `nil`), or the
panic of calling `IsDir` on the nil `FileInfo` that `os.Stat` returns with an error. -/
def ValidateServer (env : Env) (s : Server) : Except Panic (Option Error) :=
  match env.stat s.DocRoot with
  | .notExist => .ok (some (.other "no such file or directory"))
  | .ok fi =>
    if !fi.isDir then .ok (some (.other ("doc root " ++ s.DocRoot ++ " is not a directory")))
    else .ok none
  | .failed _ => .error .nilDeref

/-- A file system for concrete runs in which `os.Stat` fails on every path with an error other
than not-exist, such as permission denied. -/
def deniedEnv : Env :=
  { stat := fun _ => .failed "permission denied"
    now := 0 }

/-- Surroundings for concrete runs: `/srv/www/index.html` is the only file, and the write of
the first iteration fails. -/
def flakyWorld : Nat → Tick :=
  fun n => { env := sampleEnv ["/srv/www/index.html"], writeOk := n != 0 }

/-- The request as `HandleGoodRequest` leaves it: `index.html` is appended to a `URL` that
ends in a slash. -/
def withIndex (req : Request) : Request :=
  if HasSuffix req.URL "/" then { req with URL := req.URL ++ "index.html" } else req

/-- The text `filepath.Clean` returns for the elements it has kept, outermost first. -/
def renderClean (rooted : Bool) (out : List (List Char)) : String :=
  if rooted then ⟨'/' :: joinSlash out⟩ else if out = [] then "." else ⟨joinSlash out⟩

/-- What holds of the elements `filepath.Clean` has kept, innermost first: none is empty, holds
a slash or is `.`, and a `..` occurs only on a path that is not rooted, with nothing but `..`
before it. -/
def normStack (rooted : Bool) : List (List Char) → Prop
  | [] => True
  | top :: below =>
    top ≠ [] ∧ '/' ∉ top ∧ top ≠ ['.'] ∧
      (top = ['.', '.'] → rooted = false ∧ ∀ x ∈ below, x = ['.', '.']) ∧
      normStack rooted below

/-! ## Lemmas on splitting -/

theorem cutAt_eq_none {sep : Char} {s : List Char} : cutAt sep s = none ↔ sep ∉ s := by
  induction s with
  | nil => simp [cutAt]
  | cons c cs ih =>
    by_cases h : c = sep
    · simp [cutAt, h]
    · have h' : ¬ sep = c := fun e => h e.symm
      cases hc : cutAt sep cs with
      | none => simp [cutAt, h, h', hc, ih.mp hc]
      | some p =>
        have : sep ∈ cs := by
          by_contra hn
          rw [ih.mpr hn] at hc
          cases hc
        simp [cutAt, h, hc, this]

theorem cutAt_eq_some {sep : Char} {s a b : List Char} (h : cutAt sep s = some (a, b)) :
    s = a ++ sep :: b ∧ sep ∉ a := by
  induction s generalizing a b with
  | nil => simp [cutAt] at h
  | cons c cs ih =>
    by_cases hc : c = sep
    · simp [cutAt, hc] at h
      obtain ⟨rfl, rfl⟩ := h
      simp [hc]
    · have hc' : ¬ sep = c := fun e => hc e.symm
      cases hcut : cutAt sep cs with
      | none => simp [cutAt, hc, hcut] at h
      | some p =>
        obtain ⟨a', b'⟩ := p
        simp [cutAt, hc, hcut] at h
        obtain ⟨rfl, rfl⟩ := h
        obtain ⟨h1, h2⟩ := ih hcut
        exact ⟨by rw [h1]; simp, by simp [hc', h2]⟩

theorem cutAt_takeWhile {sep : Char} {s a b : List Char} (h : cutAt sep s = some (a, b)) :
    a = s.takeWhile (fun c => c ≠ sep) ∧ b = (s.dropWhile (fun c => c ≠ sep)).drop 1 := by
  induction s generalizing a b with
  | nil => simp [cutAt] at h
  | cons c cs ih =>
    by_cases hc : c = sep
    · simp [cutAt, hc] at h
      obtain ⟨rfl, rfl⟩ := h
      simp [List.takeWhile, List.dropWhile, hc]
    · cases hcut : cutAt sep cs with
      | none => simp [cutAt, hc, hcut] at h
      | some p =>
        obtain ⟨a', b'⟩ := p
        simp [cutAt, hc, hcut] at h
        obtain ⟨rfl, rfl⟩ := h
        have h12 := ih hcut
        simp [List.takeWhile, List.dropWhile, hc] at h12 ⊢
        exact h12

theorem splitAll_of_not_mem {sep : Char} {s : List Char} (h : sep ∉ s) :
    splitAll sep s = [s] := by
  induction s with
  | nil => rfl
  | cons c cs ih =>
    simp only [List.mem_cons, not_or] at h
    have hc : ¬ c = sep := fun e => h.1 e.symm
    simp [splitAll, hc, ih h.2]

theorem splitAll_of_cutAt {sep : Char} {s a b : List Char} (h : cutAt sep s = some (a, b)) :
    splitAll sep s = a :: splitAll sep b := by
  induction s generalizing a b with
  | nil => simp [cutAt] at h
  | cons c cs ih =>
    by_cases hc : c = sep
    · simp [cutAt, hc] at h
      obtain ⟨rfl, rfl⟩ := h
      simp [splitAll, hc]
    · cases hcut : cutAt sep cs with
      | none => simp [cutAt, hc, hcut] at h
      | some p =>
        obtain ⟨a', b'⟩ := p
        simp [cutAt, hc, hcut] at h
        obtain ⟨rfl, rfl⟩ := h
        simp [splitAll, hc, ih hcut]

theorem splitAll_length_pos (sep : Char) (s : List Char) : 0 < (splitAll sep s).length := by
  induction s with
  | nil => simp [splitAll]
  | cons c cs ih =>
    by_cases hc : c = sep
    · simp [splitAll, hc]
    · cases hs : splitAll sep cs with
      | nil => simp [splitAll, hc, hs]
      | cons w ws => simp [splitAll, hc, hs]

theorem splitAll_length_one {sep : Char} {s : List Char} (h : (splitAll sep s).length = 1) :
    sep ∉ s := by
  intro hmem
  cases hc : cutAt sep s with
  | none => exact (cutAt_eq_none.mp hc) hmem
  | some p =>
    obtain ⟨a, b⟩ := p
    rw [splitAll_of_cutAt hc] at h
    have := splitAll_length_pos sep b
    simp only [List.length_cons] at h
    omega

/-! ## Lemmas on the parser -/

theorem parseHeaderLine_fields {h : String} (hok : (parseHeaderLine h).2 = none) :
    (parseHeaderLine h).1 = [headerName h, headerValue h] ∧ ':' ∈ h.data ∧
      headerName h ≠ "" ∧ Contains (headerName h) ' ' = false := by
  cases hc : cutAt ':' h.data with
  | none => simp [parseHeaderLine, SplitN, splitNChars, hc] at hok
  | some p =>
    obtain ⟨a, b⟩ := p
    obtain ⟨ha, hb⟩ := cutAt_takeWhile hc
    have hmem : ':' ∈ h.data := by
      by_contra hn
      rw [cutAt_eq_none.mpr hn] at hc
      cases hc
    have hf : SplitN h ':' 2 = [headerName h, headerValue h] := by
      simp [SplitN, splitNChars, hc, headerName, headerValue, ha, hb]
    unfold parseHeaderLine at hok ⊢
    simp only [hf] at hok ⊢
    simp only [List.length_cons, List.length_nil, List.getD_cons_zero] at hok ⊢
    by_cases h2 : headerName h = ""
    · simp [h2] at hok
    · by_cases h3 : Contains (headerName h) ' ' = true
      · simp [h2, h3] at hok
      · exact ⟨by simp [h2, h3], hmem, h2, by simpa using h3⟩

theorem parseHeaderLine_empty : (parseHeaderLine "").2 ≠ none := by decide

/-- The loop's iteration on a line that carries an error. -/
theorem readHeaders_cons_err (canon : String → String) (b : Bool) (req : Request)
    (m : HeaderMap) (hh : Bool) (r : LineResult) (rest : Reader) (e : Error)
    (he : r.err = some e) :
    readHeaders canon b req m hh (r :: rest) = ⟨none, b, some e, rest⟩ := by
  simp [readHeaders, he]

/-- The loop's iteration on the terminator. -/
theorem readHeaders_cons_empty (canon : String → String) (b : Bool) (req : Request)
    (m : HeaderMap) (hh : Bool) (r : LineResult) (rest : Reader)
    (he : r.err = none) (hl : r.line = "") :
    readHeaders canon b req m hh (r :: rest) =
      if hh then ⟨some { req with Header := m }, b, none, rest⟩
      else ⟨none, b, some .noHost, rest⟩ := by
  cases hh <;> simp [readHeaders, he, hl]

/-- The loop's iteration on a line that `parseHeaderLine` rejects. -/
theorem readHeaders_cons_bad (canon : String → String) (b : Bool) (req : Request)
    (m : HeaderMap) (hh : Bool) (r : LineResult) (rest : Reader) (e : Error)
    (he : r.err = none) (hl : r.line ≠ "") (hp : (parseHeaderLine r.line).2 = some e) :
    readHeaders canon b req m hh (r :: rest) = ⟨none, b, some e, rest⟩ := by
  rw [readHeaders]
  simp only [he, hl, if_false]
  split
  · next e' hpe => rw [hpe] at hp; simp at hp; rw [hp]
  · next hd hpe => rw [hpe] at hp; simp at hp

/-- The loop's iteration on an accepted header line. -/
theorem readHeaders_cons_accepted (canon : String → String) (b : Bool) (req : Request)
    (m : HeaderMap) (hh : Bool) (r : LineResult) (rest : Reader) (ha : acceptedHeader r) :
    readHeaders canon b req m hh (r :: rest) =
      if canon (headerName r.line) = "Host" then
        readHeaders canon b { req with Host := TrimSpace (headerValue r.line) } m true rest
      else if canon (headerName r.line) = "Connection" ∧
          TrimSpace (headerValue r.line) = "close" then
        readHeaders canon b { req with Close := true } m hh rest
      else
        readHeaders canon b req
          (m.set (canon (headerName r.line)) (TrimSpace (headerValue r.line))) hh rest := by
  obtain ⟨he, hl, hp⟩ := ha
  have hf := (parseHeaderLine_fields hp).1
  rw [readHeaders]
  simp only [he, hl, if_false]
  split
  · next e' hpe => rw [hpe] at hp; simp at hp
  · next hd hpe =>
    rw [hpe] at hf
    simp only at hf
    subst hf
    simp

/-- The four ways an iteration of the header loop can go. -/
theorem lineResult_cases (r : LineResult) :
    (∃ e, r.err = some e) ∨ (r.err = none ∧ r.line = "") ∨
      (r.err = none ∧ r.line ≠ "" ∧ ∃ e, (parseHeaderLine r.line).2 = some e) ∨
      acceptedHeader r := by
  cases he : r.err with
  | some e => exact Or.inl ⟨e, rfl⟩
  | none =>
    by_cases hl : r.line = ""
    · exact Or.inr (Or.inl ⟨rfl, hl⟩)
    · cases hp : (parseHeaderLine r.line).2 with
      | some e => exact Or.inr (Or.inr (Or.inl ⟨rfl, hl, e, rfl⟩))
      | none => exact Or.inr (Or.inr (Or.inr ⟨he, hl, hp⟩))

/-- The header loop returns a request exactly when it returns no error, and passes `byteR`
on. -/
theorem readHeaders_shape (canon : String → String) (b : Bool) (rd : Reader) :
    ∀ (req : Request) (m : HeaderMap) (hh : Bool),
      (readHeaders canon b req m hh rd).bytesReceived = b ∧
      ((∃ q, (readHeaders canon b req m hh rd).req = some q ∧
          (readHeaders canon b req m hh rd).err = none) ∨
        ((readHeaders canon b req m hh rd).req = none ∧
          (readHeaders canon b req m hh rd).err ≠ none)) := by
  induction rd with
  | nil => intro req m hh; simp [readHeaders]
  | cons r rest ih =>
    intro req m hh
    rcases lineResult_cases r with ⟨e, he⟩ | ⟨he, hl⟩ | ⟨he, hl, e, hp⟩ | ha
    · rw [readHeaders_cons_err canon b req m hh r rest e he]; simp
    · rw [readHeaders_cons_empty canon b req m hh r rest he hl]
      cases hh <;> simp
    · rw [readHeaders_cons_bad canon b req m hh r rest e he hl hp]; simp
    · rw [readHeaders_cons_accepted canon b req m hh r rest ha]
      split_ifs
      · exact ih _ _ _
      · exact ih _ _ _
      · exact ih _ _ _

/-- Without a `Host` header before the terminator the header loop, entered with
`hasHost = false`, fails. -/
theorem readHeaders_no_host (canon : String → String) (b : Bool) (rd : Reader) :
    ∀ (req : Request) (m : HeaderMap),
      (∀ r ∈ rd.takeWhile (fun r => r.line ≠ ""), canon (headerName r.line) ≠ "Host") →
      (readHeaders canon b req m false rd).req = none ∧
        (readHeaders canon b req m false rd).err ≠ none := by
  induction rd with
  | nil => intro req m _; simp [readHeaders]
  | cons r rest ih =>
    intro req m hno
    rcases lineResult_cases r with ⟨e, he⟩ | ⟨he, hl⟩ | ⟨he, hl, e, hp⟩ | ha
    · rw [readHeaders_cons_err canon b req m false r rest e he]; simp
    · rw [readHeaders_cons_empty canon b req m false r rest he hl]; simp
    · rw [readHeaders_cons_bad canon b req m false r rest e he hl hp]; simp
    · have hl := ha.2.1
      have htw : List.takeWhile (fun r => decide (r.line ≠ "")) (r :: rest) =
          r :: List.takeWhile (fun r => decide (r.line ≠ "")) rest := by
        simp [List.takeWhile, hl]
      rw [htw] at hno
      have hr : canon (headerName r.line) ≠ "Host" := hno r (List.mem_cons_self _ _)
      have hrest : ∀ x ∈ List.takeWhile (fun r => decide (r.line ≠ "")) rest,
          canon (headerName x.line) ≠ "Host" := fun x hx => hno x (List.mem_cons_of_mem _ hx)
      rw [readHeaders_cons_accepted canon b req m false r rest ha]
      simp only [hr, if_false]
      split_ifs
      · exact ih _ _ hrest
      · exact ih _ _ hrest

/-- The request the header loop returns has `Close` set exactly when it was set on entry or
the lines up to the terminator hold a `Connection: close`. -/
theorem readHeaders_close (canon : String → String) (b : Bool) (rd : Reader) :
    ∀ (req : Request) (m : HeaderMap) (hh : Bool) (q : Request),
      (readHeaders canon b req m hh rd).req = some q →
      (q.Close = true ↔ req.Close = true ∨
        ∃ r ∈ rd.takeWhile (fun r => r.line ≠ ""), isConnectionClose canon r) := by
  induction rd with
  | nil => intro req m hh q h; simp [readHeaders] at h
  | cons r rest ih =>
    intro req m hh q h
    rcases lineResult_cases r with ⟨e, he⟩ | ⟨he, hl⟩ | ⟨he, hl, e, hp⟩ | ha
    · rw [readHeaders_cons_err canon b req m hh r rest e he] at h; simp at h
    · rw [readHeaders_cons_empty canon b req m hh r rest he hl] at h
      cases hh
      · simp at h
      · simp at h
        subst h
        simp [List.takeWhile, hl]
    · rw [readHeaders_cons_bad canon b req m hh r rest e he hl hp] at h; simp at h
    · have hl := ha.2.1
      have htw : List.takeWhile (fun r => decide (r.line ≠ "")) (r :: rest) =
          r :: List.takeWhile (fun r => decide (r.line ≠ "")) rest := by
        simp [List.takeWhile, hl]
      rw [htw]
      rw [readHeaders_cons_accepted canon b req m hh r rest ha] at h
      simp only [List.mem_cons, exists_eq_or_imp]
      split_ifs at h with h1 h2
      · have hnot : ¬ isConnectionClose canon r := by
          intro hc
          rw [hc.1] at h1
          exact absurd h1 (by decide)
        rw [ih _ _ _ _ h]
        simp [hnot]
      · have hyes : isConnectionClose canon r := h2
        rw [ih _ _ _ _ h]
        simp [hyes]
      · have hnot : ¬ isConnectionClose canon r := h2
        rw [ih _ _ _ _ h]
        simp [hnot]

/-- Go `ReadRequest` at end of stream. -/
theorem ReadRequest_nil (canon : String → String) :
    ReadRequest canon [] = ⟨none, false, some .eof, []⟩ := by
  simp [ReadRequest, ReadLine]

/-- Go `ReadRequest` when the first read fails. -/
theorem ReadRequest_cons_err (canon : String → String) (r : LineResult) (rest : Reader)
    (e : Error) (he : r.err = some e) :
    ReadRequest canon (r :: rest) = ⟨none, decide (r.line ≠ ""), some e, rest⟩ := by
  by_cases hl : r.line = "" <;> simp [ReadRequest, ReadLine, he, hl]

/-- Go `ReadRequest` on an accepted request line: it enters the header loop. -/
theorem ReadRequest_cons_accepted (canon : String → String) (r : LineResult) (rest : Reader)
    (he : r.err = none) (ha : acceptedRequestLine r.line) :
    ReadRequest canon (r :: rest) =
      readHeaders canon (decide (r.line ≠ ""))
        { Method := (parseRequestLine r.line).1.getD 0 "",
          URL := (parseRequestLine r.line).1.getD 1 "",
          Proto := (parseRequestLine r.line).1.getD 2 "" } [] false rest := by
  obtain ⟨h1, h2, h3, h4⟩ := ha
  rcases hp : parseRequestLine r.line with ⟨fields, e⟩
  rw [hp] at h1 h2 h3 h4
  simp only at h1 h2 h3 h4
  subst h1
  have hb : (if r.line ≠ "" then true else false) = decide (r.line ≠ "") := by
    by_cases hl : r.line = "" <;> simp [hl]
  simp only [ReadRequest, ReadLine, he, hp, h2, h3, h4, hb]

/-- Go `ReadRequest` on a request line that is read but not accepted: it fails, with the error
of the first check that fails. -/
theorem ReadRequest_cons_rejected (canon : String → String) (r : LineResult) (rest : Reader)
    (he : r.err = none) (ha : ¬ acceptedRequestLine r.line) :
    (ReadRequest canon (r :: rest)).req = none ∧ (ReadRequest canon (r :: rest)).err ≠ none ∧
      (ReadRequest canon (r :: rest)).bytesReceived = decide (r.line ≠ "") := by
  unfold acceptedRequestLine at ha
  rcases hp : parseRequestLine r.line with ⟨fields, e⟩
  rw [hp] at ha
  simp only at ha
  have hb : (if r.line ≠ "" then true else false) = decide (r.line ≠ "") := by
    by_cases hl : r.line = "" <;> simp [hl]
  cases e with
  | some e => simp only [ReadRequest, ReadLine, he, hp, hb]; simp
  | none =>
    cases h2 : ValidateMethod (fields.getD 0 "") with
    | some e => simp only [ReadRequest, ReadLine, he, hp, h2, hb]; simp
    | none =>
      cases h3 : ValidateURL (fields.getD 1 "") with
      | some e => simp only [ReadRequest, ReadLine, he, hp, h2, h3, hb]; simp
      | none =>
        cases h4 : ValidateProto (fields.getD 2 "") with
        | some e => simp only [ReadRequest, ReadLine, he, hp, h2, h3, h4, hb]; simp
        | none => exact absurd ⟨rfl, h2, h3, h4⟩ ha

theorem acceptedRequestLine_ne_empty {line : String} (ha : acceptedRequestLine line) :
    line ≠ "" := by
  rintro rfl
  exact absurd ha.1 (by decide)

/-- An accepted request line has exactly three space-separated fields. -/
theorem acceptedRequestLine_fields {line : String} (ha : acceptedRequestLine line) :
    (spaceFields line).length = 3 := by
  obtain ⟨h1, -, -, h4⟩ := ha
  unfold parseRequestLine at h1 h4
  cases hc : cutAt ' ' line.data with
  | none => simp [SplitN, splitNChars, hc] at h1
  | some p =>
    obtain ⟨a, b⟩ := p
    cases hc2 : cutAt ' ' b with
    | none => simp [SplitN, splitNChars, hc, hc2] at h1
    | some p2 =>
      obtain ⟨c, d⟩ := p2
      have hf : SplitN line ' ' 3 = [⟨a⟩, ⟨c⟩, ⟨d⟩] := by
        simp [SplitN, splitNChars, hc, hc2]
      simp only [hf, List.length_cons, List.length_nil] at h4
      simp [ValidateProto] at h4
      have hd : d = "HTTP/1.1".data := by
        have := congrArg String.data h4
        simpa using this
      have hnd : ' ' ∉ d := by rw [hd]; decide
      simp [spaceFields, splitAll_of_cutAt hc, splitAll_of_cutAt hc2, splitAll_of_not_mem hnd]

/-- C2: whenever no line of the header block (the lines after the request line, up to the
empty-line terminator) has canonical name `Host`, `ReadRequest` returns a nil request and a
non-nil error. -/
theorem readRequest_missing_host (canon : String → String) (br : Reader)
    (h : ∀ r ∈ headerBlock br, canon (headerName r.line) ≠ "Host") :
    (ReadRequest canon br).req = none ∧ (ReadRequest canon br).err ≠ none := by
  cases br with
  | nil => simp [ReadRequest_nil]
  | cons r rest =>
    cases he : r.err with
    | some e => simp [ReadRequest_cons_err canon r rest e he]
    | none =>
      by_cases ha : acceptedRequestLine r.line
      · rw [ReadRequest_cons_accepted canon r rest he ha]
        exact readHeaders_no_host canon _ rest _ _ (by simpa [headerBlock] using h)
      · exact ⟨(ReadRequest_cons_rejected canon r rest he ha).1,
          (ReadRequest_cons_rejected canon r rest he ha).2.1⟩

/-- C2, at a request with a `User-Agent` header only. -/
theorem readRequest_missing_host_witness :
    (∀ r ∈ headerBlock [⟨"GET / HTTP/1.1", none⟩, ⟨"User-Agent: x", none⟩, ⟨"", none⟩],
        CanonicalHeaderKey (headerName r.line) ≠ "Host") ∧
      (ReadRequest CanonicalHeaderKey
        [⟨"GET / HTTP/1.1", none⟩, ⟨"User-Agent: x", none⟩, ⟨"", none⟩]).req = none ∧
      (ReadRequest CanonicalHeaderKey
        [⟨"GET / HTTP/1.1", none⟩, ⟨"User-Agent: x", none⟩, ⟨"", none⟩]).err ≠ none :=
  ⟨by decide, readRequest_missing_host _ _ (by decide)⟩

/-- C3: on every input on which `ReadRequest` succeeds, the request's `Close` is true exactly
when some line of the header block has canonical name `Connection` and trimmed value
`close`. -/
theorem readRequest_close_iff (canon : String → String) (br : Reader) (q : Request)
    (h : (ReadRequest canon br).req = some q) :
    q.Close = true ↔ ∃ r ∈ headerBlock br, isConnectionClose canon r := by
  cases br with
  | nil => simp [ReadRequest_nil] at h
  | cons r rest =>
    cases he : r.err with
    | some e => simp [ReadRequest_cons_err canon r rest e he] at h
    | none =>
      by_cases ha : acceptedRequestLine r.line
      · rw [ReadRequest_cons_accepted canon r rest he ha] at h
        have := readHeaders_close canon _ rest _ _ _ q h
        simpa [headerBlock] using this
      · rw [(ReadRequest_cons_rejected canon r rest he ha).1] at h
        cases h

/-- C3, at a request that asks to close. -/
theorem readRequest_close_iff_witness :
    (ReadRequest CanonicalHeaderKey
        [⟨"GET / HTTP/1.1", none⟩, ⟨"Host: a", none⟩, ⟨"connection:  close ", none⟩,
          ⟨"", none⟩]).req =
      some { Method := "GET", URL := "/", Proto := "HTTP/1.1", Host := "a", Close := true } ∧
    ((true = true) ↔ ∃ r ∈ headerBlock
        [⟨"GET / HTTP/1.1", none⟩, ⟨"Host: a", none⟩, ⟨"connection:  close ", none⟩,
          ⟨"", none⟩], isConnectionClose CanonicalHeaderKey r) :=
  ⟨by decide, readRequest_close_iff CanonicalHeaderKey
    [⟨"GET / HTTP/1.1", none⟩, ⟨"Host: a", none⟩, ⟨"connection:  close ", none⟩, ⟨"", none⟩]
    { Method := "GET", URL := "/", Proto := "HTTP/1.1", Host := "a", Close := true }
    (by decide)⟩

/-- C5: on every input `ReadRequest` returns either a request with `bytesReceived = true` and
no error, or no request and an error. -/
theorem readRequest_result_shape (canon : String → String) (br : Reader) :
    (∃ q, (ReadRequest canon br).req = some q ∧ (ReadRequest canon br).bytesReceived = true ∧
        (ReadRequest canon br).err = none) ∨
      ((ReadRequest canon br).req = none ∧ (ReadRequest canon br).err ≠ none) := by
  cases br with
  | nil => simp [ReadRequest_nil]
  | cons r rest =>
    cases he : r.err with
    | some e => simp [ReadRequest_cons_err canon r rest e he]
    | none =>
      by_cases ha : acceptedRequestLine r.line
      · rw [ReadRequest_cons_accepted canon r rest he ha]
        have hl := acceptedRequestLine_ne_empty ha
        obtain ⟨hb, hs⟩ := readHeaders_shape canon (decide (r.line ≠ "")) rest
          { Method := (parseRequestLine r.line).1.getD 0 "",
            URL := (parseRequestLine r.line).1.getD 1 "",
            Proto := (parseRequestLine r.line).1.getD 2 "" } [] false
        rcases hs with ⟨q, hq, hn⟩ | hs
        · refine Or.inl ⟨q, hq, ?_, hn⟩
          rw [hb]
          simp [hl]
        · exact Or.inr hs
      · exact Or.inr ⟨(ReadRequest_cons_rejected canon r rest he ha).1,
          (ReadRequest_cons_rejected canon r rest he ha).2.1⟩

/-- C7: a request line that does not consist of exactly three space-separated fields makes
`ReadRequest` return a nil request and an error. -/
theorem readRequest_field_count (canon : String → String) (r : LineResult) (rest : Reader)
    (h : (spaceFields r.line).length ≠ 3) :
    (ReadRequest canon (r :: rest)).req = none ∧ (ReadRequest canon (r :: rest)).err ≠ none := by
  cases he : r.err with
  | some e => simp [ReadRequest_cons_err canon r rest e he]
  | none =>
    have ha : ¬ acceptedRequestLine r.line := fun ha => h (acceptedRequestLine_fields ha)
    exact ⟨(ReadRequest_cons_rejected canon r rest he ha).1,
      (ReadRequest_cons_rejected canon r rest he ha).2.1⟩

/-- C7, at a request line of four fields, which `parseRequestLine` lets through and
`ValidateProto` rejects. -/
theorem readRequest_field_count_witness :
    (spaceFields "GET / HTTP/1.1 extra").length ≠ 3 ∧
      (ReadRequest CanonicalHeaderKey
        [⟨"GET / HTTP/1.1 extra", none⟩, ⟨"Host: a", none⟩, ⟨"", none⟩]).req = none ∧
      (ReadRequest CanonicalHeaderKey
        [⟨"GET / HTTP/1.1 extra", none⟩, ⟨"Host: a", none⟩, ⟨"", none⟩]).err ≠ none :=
  ⟨by decide, readRequest_field_count CanonicalHeaderKey ⟨"GET / HTTP/1.1 extra", none⟩
    [⟨"Host: a", none⟩, ⟨"", none⟩] (by decide)⟩

/-- The header loop runs through a block of accepted header lines and goes on with what
follows, in some state. -/
theorem readHeaders_append_accepted (canon : String → String) (b : Bool) (hs : List LineResult)
    (tail : Reader) (hacc : ∀ x ∈ hs, acceptedHeader x) :
    ∀ (req : Request) (m : HeaderMap) (hh : Bool), ∃ req' m' hh',
      readHeaders canon b req m hh (hs ++ tail) = readHeaders canon b req' m' hh' tail := by
  induction hs with
  | nil => intro req m hh; exact ⟨req, m, hh, rfl⟩
  | cons r hs ih =>
    intro req m hh
    have har : acceptedHeader r := hacc r (List.mem_cons_self _ _)
    have ih' := ih (fun x hx => hacc x (List.mem_cons_of_mem _ hx))
    rw [List.cons_append, readHeaders_cons_accepted canon b req m hh r (hs ++ tail) har]
    split_ifs
    · exact ih' _ _ _
    · exact ih' _ _ _
    · exact ih' _ _ _

/-- A header line is its name, a colon and its value, as soon as it holds a colon. -/
theorem headerName_append_headerValue {h : String} (hc : ':' ∈ h.data) :
    h = headerName h ++ ":" ++ headerValue h ∧ ':' ∉ (headerName h).data := by
  cases hcut : cutAt ':' h.data with
  | none => exact absurd hc (cutAt_eq_none.mp hcut)
  | some p =>
    obtain ⟨a, b⟩ := p
    obtain ⟨ha, hb⟩ := cutAt_takeWhile hcut
    obtain ⟨hs, hn⟩ := cutAt_eq_some hcut
    constructor
    · apply String.ext
      simp only [headerName, headerValue, String.data_append, ← ha, ← hb]
      simpa using hs
    · show ':' ∉ List.takeWhile (fun c => decide (c ≠ ':')) h.data
      rw [← ha]
      exact hn

/-- C4, as the code behaves: a `Connection` header whose value is not `close` is stored in the
`Header` map of the request `ReadRequest` returns. -/
theorem readRequest_keeps_connection :
    (ReadRequest CanonicalHeaderKey
        [⟨"GET / HTTP/1.1", none⟩, ⟨"Host: a", none⟩, ⟨"Connection: keep-alive", none⟩,
          ⟨"", none⟩]) =
      ⟨some { Method := "GET", URL := "/", Proto := "HTTP/1.1", Host := "a", Close := false,
              Header := [("Connection", "keep-alive")] }, true, none, []⟩ ∧
    HeaderMap.get [("Connection", "keep-alive")] "Connection" = some "keep-alive" := by
  decide

/-- C6, as the code behaves: a request line that is read successfully and is empty leaves
`bytesReceived` false; the parser fails on its field count. -/
theorem readRequest_empty_line (canon : String → String) (rest : Reader) :
    ReadRequest canon (⟨"", none⟩ :: rest) = ⟨none, false, some (.wrongFields [""]), rest⟩ := by
  simp [ReadRequest, ReadLine, parseRequestLine, SplitN, splitNChars, cutAt]

/-- C8 as stated fails: a header name that contains a tab is accepted by `parseHeaderLine`,
and `ReadRequest` returns the request. -/
theorem parseHeaderLine_accepts_tab :
    isSpace '\t' = true ∧ Contains (headerName "X\tY: v") '\t' = true ∧
      (parseHeaderLine "X\tY: v").2 = none ∧
      (ReadRequest CanonicalHeaderKey
        [⟨"GET / HTTP/1.1", none⟩, ⟨"Host: a", none⟩, ⟨"X\tY: v", none⟩, ⟨"", none⟩]).err = none ∧
      (ReadRequest CanonicalHeaderKey
        [⟨"GET / HTTP/1.1", none⟩, ⟨"Host: a", none⟩, ⟨"X\tY: v", none⟩, ⟨"", none⟩]).req ≠ none := by
  decide

/-- C8, amended: `parseHeaderLine` returns an error for every header line that has no colon,
has an empty name before the first colon, or has a name containing a space; and when
`ReadRequest` meets such a line (not the empty terminator) after an accepted request line and
accepted header lines, it returns that error and a nil request. -/
theorem parseHeaderLine_rejects (canon : String → String) (line : String)
    (hs : List LineResult) (h : String) (rest : Reader)
    (hbad : ':' ∉ h.data ∨ headerName h = "" ∨ Contains (headerName h) ' ' = true) :
    (parseHeaderLine h).2 ≠ none ∧
      (h ≠ "" → acceptedRequestLine line → (∀ x ∈ hs, acceptedHeader x) →
        (ReadRequest canon (⟨line, none⟩ :: (hs ++ ⟨h, none⟩ :: rest))).req = none ∧
        (ReadRequest canon (⟨line, none⟩ :: (hs ++ ⟨h, none⟩ :: rest))).err =
          (parseHeaderLine h).2) := by
  have hrej : (parseHeaderLine h).2 ≠ none := by
    intro hok
    obtain ⟨-, h1, h2, h3⟩ := parseHeaderLine_fields hok
    rcases hbad with hb | hb | hb
    · exact hb h1
    · exact h2 hb
    · rw [h3] at hb; cases hb
  refine ⟨hrej, fun hne hline hacc => ?_⟩
  obtain ⟨e, he⟩ := Option.ne_none_iff_exists'.mp hrej
  rw [ReadRequest_cons_accepted canon ⟨line, none⟩ _ rfl hline]
  obtain ⟨req', m', hh', heq⟩ := readHeaders_append_accepted canon
    (decide ((⟨line, none⟩ : LineResult).line ≠ "")) hs (⟨h, none⟩ :: rest) hacc
    { Method := (parseRequestLine line).1.getD 0 "",
      URL := (parseRequestLine line).1.getD 1 "",
      Proto := (parseRequestLine line).1.getD 2 "" } [] false
  rw [heq, readHeaders_cons_bad canon _ req' m' hh' ⟨h, none⟩ rest e rfl hne he, he]
  exact ⟨rfl, rfl⟩

/-- C8 amended, at a header line whose name holds a space. -/
theorem parseHeaderLine_rejects_witness :
    (':' ∉ "Bad Name: v".data ∨ headerName "Bad Name: v" = "" ∨
        Contains (headerName "Bad Name: v") ' ' = true) ∧
      (parseHeaderLine "Bad Name: v").2 ≠ none ∧
      (ReadRequest CanonicalHeaderKey (⟨"GET / HTTP/1.1", none⟩ ::
          ([⟨"Host: a", none⟩] ++ ⟨"Bad Name: v", none⟩ :: [⟨"", none⟩]))).req = none ∧
      (ReadRequest CanonicalHeaderKey (⟨"GET / HTTP/1.1", none⟩ ::
          ([⟨"Host: a", none⟩] ++ ⟨"Bad Name: v", none⟩ :: [⟨"", none⟩]))).err =
          (parseHeaderLine "Bad Name: v").2 :=
  ⟨by decide,
    (parseHeaderLine_rejects CanonicalHeaderKey "GET / HTTP/1.1"
      [⟨"Host: a", none⟩] "Bad Name: v" [⟨"", none⟩] (by decide)).1,
    (parseHeaderLine_rejects CanonicalHeaderKey "GET / HTTP/1.1"
      [⟨"Host: a", none⟩] "Bad Name: v" [⟨"", none⟩] (by decide)).2
      (by decide) (by decide) (by decide)⟩

/-- C9: for every accepted header line the fields are the text before the first colon and the
text after it (the line is name, colon, value, and the name holds no colon), and the loop
stores the trimmed value under the canonical name: in `Host`, as the `Close` flag for
`Connection: close`, in the header map otherwise. -/
theorem header_first_colon (canon : String → String) (b : Bool) (req : Request)
    (m : HeaderMap) (hh : Bool) (r : LineResult) (rest : Reader) (ha : acceptedHeader r) :
    (parseHeaderLine r.line).1 = [headerName r.line, headerValue r.line] ∧
      r.line = headerName r.line ++ ":" ++ headerValue r.line ∧
      ':' ∉ (headerName r.line).data ∧
      readHeaders canon b req m hh (r :: rest) =
        if canon (headerName r.line) = "Host" then
          readHeaders canon b { req with Host := TrimSpace (headerValue r.line) } m true rest
        else if canon (headerName r.line) = "Connection" ∧
            TrimSpace (headerValue r.line) = "close" then
          readHeaders canon b { req with Close := true } m hh rest
        else
          readHeaders canon b req
            (m.set (canon (headerName r.line)) (TrimSpace (headerValue r.line))) hh rest := by
  obtain ⟨hf, hc, -, -⟩ := parseHeaderLine_fields ha.2.2
  obtain ⟨h1, h2⟩ := headerName_append_headerValue hc
  exact ⟨hf, h1, h2, readHeaders_cons_accepted canon b req m hh r rest ha⟩

/-- C9, at `Host: localhost:8080`: the value keeps its colon, and `ReadRequest` returns it as
`Host`. -/
theorem header_first_colon_witness :
    acceptedHeader ⟨"Host: localhost:8080", none⟩ ∧
      ((parseHeaderLine "Host: localhost:8080").1 = ["Host", " localhost:8080"] ∧
        "Host: localhost:8080" = "Host" ++ ":" ++ " localhost:8080" ∧
        ':' ∉ "Host".data ∧
        readHeaders CanonicalHeaderKey true {} [] false
            [⟨"Host: localhost:8080", none⟩, ⟨"", none⟩] =
          readHeaders CanonicalHeaderKey true { Host := "localhost:8080" } [] true
            [⟨"", none⟩]) ∧
      (ReadRequest CanonicalHeaderKey
        [⟨"GET / HTTP/1.1", none⟩, ⟨"Host: localhost:8080", none⟩, ⟨"", none⟩]).req =
        some { Method := "GET", URL := "/", Proto := "HTTP/1.1", Host := "localhost:8080" } :=
  ⟨by decide,
    header_first_colon CanonicalHeaderKey true {} [] false ⟨"Host: localhost:8080", none⟩
      [⟨"", none⟩] (by decide),
    by decide⟩

/-! ## The connection handler -/

theorem readHeaders_rest_le (canon : String → String) (b : Bool) (rd : Reader) :
    ∀ (req : Request) (m : HeaderMap) (hh : Bool),
      (readHeaders canon b req m hh rd).rest.length ≤ rd.length := by
  induction rd with
  | nil => intro req m hh; simp [readHeaders]
  | cons r rest ih =>
    intro req m hh
    rcases lineResult_cases r with ⟨e, he⟩ | ⟨he, hl⟩ | ⟨he, hl, e, hp⟩ | ha
    · rw [readHeaders_cons_err canon b req m hh r rest e he]; simp
    · rw [readHeaders_cons_empty canon b req m hh r rest he hl]
      cases hh <;> simp
    · rw [readHeaders_cons_bad canon b req m hh r rest e he hl hp]; simp
    · rw [readHeaders_cons_accepted canon b req m hh r rest ha]
      have h1 := ih { req with Host := TrimSpace (headerValue r.line) } m true
      have h2 := ih { req with Close := true } m hh
      have h3 := ih req (m.set (canon (headerName r.line)) (TrimSpace (headerValue r.line))) hh
      simp only [List.length_cons]
      split_ifs <;> omega

/-- A successful `ReadRequest` has consumed at least one line. -/
theorem ReadRequest_rest_lt (canon : String → String) (br : Reader)
    (h : (ReadRequest canon br).err = none) :
    (ReadRequest canon br).rest.length < br.length := by
  cases br with
  | nil => simp [ReadRequest_nil] at h
  | cons r rest =>
    cases he : r.err with
    | some e => simp [ReadRequest_cons_err canon r rest e he] at h
    | none =>
      by_cases ha : acceptedRequestLine r.line
      · rw [ReadRequest_cons_accepted canon r rest he ha]
        have := readHeaders_rest_le canon (decide (r.line ≠ "")) rest
          { Method := (parseRequestLine r.line).1.getD 0 "",
            URL := (parseRequestLine r.line).1.getD 1 "",
            Proto := (parseRequestLine r.line).1.getD 2 "" } [] false
        simp only [List.length_cons]
        omega
      · exact absurd h (ReadRequest_cons_rejected canon r rest he ha).2.1

/-- The loop of `HandleConnection` ends within the bound: more iterations than the reader has
lines are never needed. -/
theorem handleLoop_terminates (u : Util) (s : Server) (world : Nat → Tick) (fuel : Nat) :
    ∀ (i : Nat) (reader : Reader) (events : List Event), reader.length < fuel →
      ∃ o, handleLoop u s world fuel i reader events = some o := by
  induction fuel with
  | zero => intro i reader events h; omega
  | succ fuel ih =>
    intro i reader events h
    rw [handleLoop]
    simp only []
    split_ifs with h1 h2 h3 h4 h5
    · exact ⟨_, rfl⟩
    · exact ⟨_, rfl⟩
    · exact ⟨_, rfl⟩
    · exact ⟨_, rfl⟩
    · exact ⟨_, rfl⟩
    · have herr : (ReadRequest u.canon reader).err = none := by simpa using h5
      have hlt := ReadRequest_rest_lt u.canon reader herr
      split
      · exact ⟨_, rfl⟩
      · split_ifs
        · exact ⟨_, rfl⟩
        · exact ih _ _ _ (by omega)

/-- `HandleConnection` always ends, by returning or by panicking. -/
theorem HandleConnection_terminates (u : Util) (s : Server) (world : Nat → Tick)
    (reader : Reader) : ∃ o, HandleConnection u s world reader = some o :=
  handleLoop_terminates u s world _ 0 reader [] (Nat.lt_succ_self _)

/-- C10: in any iteration of the loop of `HandleConnection` (any reader, any events so far) in
which the deadline was armed and `ReadRequest` fails with a timeout, the handler returns; with
`bytesReceived` false it has only closed the connection, with `bytesReceived` true it has
written exactly one response, the 400 of `HandleBadRequest`, and then closed. -/
theorem handleLoop_timeout (u : Util) (s : Server) (world : Nat → Tick) (fuel i : Nat)
    (reader : Reader) (events : List Event) (e : Error)
    (hd : (world i).deadlineOk = true)
    (he : (ReadRequest u.canon reader).err = some e) (ht : e.isTimeout = true) :
    handleLoop u s world (fuel + 1) i reader events =
        some (.returned (events ++
          if (ReadRequest u.canon reader).bytesReceived then
            [.write (HandleBadRequest u (world i).env {}) (world i).writeOk, .close]
          else [.close])) ∧
      (HandleBadRequest u (world i).env {}).StatusCode = 400 := by
  have hne : e.isEOF = false := by
    cases e <;> simp [Error.isTimeout, Error.isEOF] at ht ⊢
  refine ⟨?_, rfl⟩
  rw [handleLoop]
  simp only [hd, he, errIsEOF, errIsTimeout, ht, hne]
  cases hb : (ReadRequest u.canon reader).bytesReceived <;> simp

/-- C10, at a connection on which two bytes arrive before the deadline passes. -/
theorem handleLoop_timeout_witness :
    (sampleWorld 0).deadlineOk = true ∧
      (ReadRequest sampleUtil.canon [⟨"GE", some (.net true)⟩]).err = some (.net true) ∧
      (Error.net true).isTimeout = true ∧
      HandleConnection sampleUtil {} sampleWorld [⟨"GE", some (.net true)⟩] =
        some (.returned [.write
          { Proto := "HTTP/1.1", StatusCode := 400,
            Header := [("Date", "0"), ("Connection", "close")] } true, .close]) :=
  ⟨rfl, by decide, rfl,
    (handleLoop_timeout sampleUtil {} sampleWorld 1 0
      [⟨"GE", some (.net true)⟩] [] (.net true) rfl (by decide) rfl).1⟩

/-! ## Dispatch -/

/-- C1, as the code behaves: with document root `/srv/www`, the target `/..` resolves to
`/srv`, outside the root; the path relative to the root is `..`, which does not begin with
`../`, so the guard lets it through, and when `/srv` is a regular file the response is a 200
bound to `/srv`. -/
theorem handleGoodRequest_parent_escapes (u : Util) :
    resolvedPath { DocRoot := "/srv/www" } "/.." = "/srv" ∧
      insideRoot "/srv/www" "/srv" = false ∧
      Rel "/srv/www" "/srv" = some ".." ∧
      HandleGoodRequest u (sampleEnv ["/srv"]) { DocRoot := "/srv/www" }
          (some { Method := "GET", URL := "/..", Proto := "HTTP/1.1", Host := "a" }) =
        .ok ({ Proto := "HTTP/1.1", StatusCode := 200, FilePath := "/srv",
               Request := some { Method := "GET", URL := "/..", Proto := "HTTP/1.1", Host := "a" },
               Header := [("Date", u.FormatTime 0), ("Last-Modified", u.FormatTime 0),
                 ("Content-Type", u.MIMETypeByExtension ""), ("Content-Length", "5")] },
             { Method := "GET", URL := "/..", Proto := "HTTP/1.1", Host := "a" }) := by
  refine ⟨by decide, by decide, by decide, ?_⟩
  rfl

/-- The guard of `HandleGoodRequest`: a target whose path relative to the document root begins
with `../` gets a 404 with empty `FilePath`, whatever the file system holds. -/
theorem handleGoodRequest_guard (u : Util) (env : Env) (s : Server) (req : Request)
    (h : HasPrefix ((Rel s.DocRoot (resolvedPath s req.URL)).getD "") "../" = true) :
    ∃ res req', HandleGoodRequest u env s (some req) = .ok (res, req') ∧
      res.StatusCode = 404 ∧ res.FilePath = "" := by
  unfold resolvedPath at h
  unfold HandleGoodRequest HandleNotFound
  by_cases hs : HasSuffix req.URL "/" = true
  · simp only [hs, if_true] at h ⊢
    rw [if_pos h]
    exact ⟨_, _, rfl, rfl, rfl⟩
  · have hs' : HasSuffix req.URL "/" = false := by simpa using hs
    simp only [hs', Bool.false_eq_true, if_false] at h ⊢
    rw [if_pos h]
    exact ⟨_, _, rfl, rfl, rfl⟩

/-! ## The response builders -/

/-- C16: from any prior state of the response, `HandleBadRequest` yields status 400, protocol
`HTTP/1.1`, empty `FilePath`, no request, and a header map whose keys are exactly `Date` and
`Connection`, the latter with value `close`. -/
theorem handleBadRequest_shape (u : Util) (env : Env) (res : Response) :
    (HandleBadRequest u env res).StatusCode = 400 ∧
      (HandleBadRequest u env res).Proto = "HTTP/1.1" ∧
      (HandleBadRequest u env res).FilePath = "" ∧
      (HandleBadRequest u env res).Request = none ∧
      (∀ k, k ∈ (HandleBadRequest u env res).Header.keys ↔ k = "Date" ∨ k = "Connection") ∧
      (HandleBadRequest u env res).Header.get "Date" = some (u.FormatTime env.now) ∧
      (HandleBadRequest u env res).Header.get "Connection" = some "close" := by
  refine ⟨rfl, rfl, rfl, rfl, ?_, ?_, ?_⟩
  · intro k
    simp [HandleBadRequest, HeaderMap.set, HeaderMap.keys]
  · simp [HandleBadRequest, HeaderMap.set, HeaderMap.get]
  · simp [HandleBadRequest, HeaderMap.set, HeaderMap.get]

/-- C14 as stated fails: without a request `HandleNotFound` dereferences the nil pointer
(`req.Close`) and panics; it yields no response. -/
theorem handleNotFound_nil_panics :
    HandleNotFound sampleUtil (sampleEnv []) {} none = .error .nilDeref := by
  rfl

/-- C14, amended: for every request, `HandleNotFound` yields status 404, protocol `HTTP/1.1`,
empty `FilePath`, the request attached, and a header map that holds `Date` always and
`Connection: close` exactly when the request's `Close` is true, and no other key. -/
theorem handleNotFound_shape (u : Util) (env : Env) (res : Response) (r : Request) :
    ∃ out, HandleNotFound u env res (some r) = .ok out ∧
      out.StatusCode = 404 ∧ out.Proto = "HTTP/1.1" ∧ out.FilePath = "" ∧
      out.Request = some r ∧
      out.Header.get "Date" = some (u.FormatTime env.now) ∧
      (out.Header.get "Connection" = some "close" ↔ r.Close = true) ∧
      (out.Header.get "Connection" = none ↔ r.Close = false) ∧
      (∀ k, k ∈ out.Header.keys ↔ k = "Date" ∨ (k = "Connection" ∧ r.Close = true)) := by
  refine ⟨_, rfl, rfl, rfl, rfl, rfl, ?_⟩
  cases hc : r.Close <;> simp [HeaderMap.set, HeaderMap.get, HeaderMap.keys]

/-- C15: for every path on which `os.Stat` succeeds and every request, `HandleOK` yields
status 200, `FilePath` equal to the path, and a header map whose keys are exactly `Date`,
`Last-Modified`, `Content-Type`, `Content-Length`, plus `Connection` (with value `close`)
exactly when the request's `Close` is true; `Content-Length` is `strconv.FormatInt` in base 10
of the size that `os.Stat` returned. -/
theorem handleOK_shape (u : Util) (env : Env) (res : Response) (r : Request) (path : String)
    (fi : FileInfo) (hstat : env.stat path = .ok fi) :
    ∃ out, HandleOK u env res (some r) path = .ok out ∧
      out.StatusCode = 200 ∧ out.Proto = "HTTP/1.1" ∧ out.FilePath = path ∧
      out.Request = some r ∧
      (∀ k, k ∈ out.Header.keys ↔ k = "Date" ∨ k = "Last-Modified" ∨ k = "Content-Type" ∨
        k = "Content-Length" ∨ (k = "Connection" ∧ r.Close = true)) ∧
      (out.Header.get "Connection" = some "close" ↔ r.Close = true) ∧
      (out.Header.get "Connection" = none ↔ r.Close = false) ∧
      out.Header.get "Content-Length" = some (FormatInt fi.size) ∧
      out.Header.get "Date" = some (u.FormatTime env.now) ∧
      out.Header.get "Last-Modified" = some (u.FormatTime fi.modTime) ∧
      out.Header.get "Content-Type" = some (u.MIMETypeByExtension (Ext path)) := by
  unfold HandleOK
  simp only [hstat]
  refine ⟨_, rfl, rfl, rfl, rfl, rfl, ?_⟩
  cases hc : r.Close <;> simp [HeaderMap.set, HeaderMap.get, HeaderMap.keys]

/-- C15, at a file of 1234 bytes and a request that asks to close. -/
theorem handleOK_shape_witness :
    ∃ out, HandleOK sampleUtil
        { stat := fun _ => .ok ⟨false, 1234, 7⟩, now := 0 } {} (some { Close := true })
        "/srv/www/a.html" = .ok out ∧
      out.StatusCode = 200 ∧ out.Proto = "HTTP/1.1" ∧ out.FilePath = "/srv/www/a.html" ∧
      out.Request = some { Close := true } ∧
      (∀ k, k ∈ out.Header.keys ↔ k = "Date" ∨ k = "Last-Modified" ∨ k = "Content-Type" ∨
        k = "Content-Length" ∨ (k = "Connection" ∧ true = true)) ∧
      (out.Header.get "Connection" = some "close" ↔ true = true) ∧
      (out.Header.get "Connection" = none ↔ true = false) ∧
      out.Header.get "Content-Length" = some "1234" ∧
      out.Header.get "Date" = some "0" ∧
      out.Header.get "Last-Modified" = some "7" ∧
      out.Header.get "Content-Type" = some "text/html" :=
  handleOK_shape sampleUtil { stat := fun _ => .ok ⟨false, 1234, 7⟩, now := 0 } {}
    { Close := true } "/srv/www/a.html" ⟨false, 1234, 7⟩ rfl

/-- C18, as the code behaves: when `os.Stat` fails on the document root with an error other
than not-exist, `ValidateServer` calls `IsDir` on the nil `FileInfo` and panics; it returns no
error. -/
theorem validateServer_other_error_panics (s : Server) :
    ValidateServer deniedEnv s = .error .nilDeref := by
  rfl

/-- The outcomes of `os.Stat` that `ValidateServer` handles: a directory gives `nil`, a file
that is not a directory and a missing path give an error. -/
theorem validateServer_handled (env : Env) (s : Server) :
    (∀ fi, env.stat s.DocRoot = .ok fi → fi.isDir = true → ValidateServer env s = .ok none) ∧
      (∀ fi, env.stat s.DocRoot = .ok fi → fi.isDir = false →
        ∃ e, ValidateServer env s = .ok (some e)) ∧
      (env.stat s.DocRoot = .notExist → ∃ e, ValidateServer env s = .ok (some e)) := by
  refine ⟨?_, ?_, ?_⟩
  · intro fi h hd; simp [ValidateServer, h, hd]
  · intro fi h hd; simp [ValidateServer, h, hd]
  · intro h; simp [ValidateServer, h]

/-! ## Dispatch of a request -/

/-- Go `HandleGoodRequest` on a request never panics: it returns a 404 or a 200, attached to
the request as the call leaves it. -/
theorem HandleGoodRequest_ok (u : Util) (env : Env) (s : Server) (req : Request) :
    ∃ res, HandleGoodRequest u env s (some req) = .ok (res, withIndex req) ∧
      res.Request = some (withIndex req) ∧
      ((res.StatusCode = 404 ∧ res.FilePath = "") ∨
        (res.StatusCode = 200 ∧ res.FilePath = Clean (Join s.DocRoot (withIndex req).URL))) := by
  unfold HandleGoodRequest
  simp only []
  rw [show (if HasSuffix req.URL "/" = true then
      { req with URL := req.URL ++ "index.html" } else req) = withIndex req from rfl]
  generalize withIndex req = q
  split_ifs with hg
  · exact ⟨_, rfl, rfl, Or.inl ⟨rfl, rfl⟩⟩
  · cases hst : env.stat (Clean (Join s.DocRoot q.URL)) with
    | ok f =>
      simp only []
      split_ifs with hd
      · exact ⟨_, rfl, rfl, Or.inl ⟨rfl, rfl⟩⟩
      · simp only [HandleOK, hst]
        exact ⟨_, rfl, rfl, Or.inr ⟨rfl, rfl⟩⟩
    | notExist => exact ⟨_, rfl, rfl, Or.inl ⟨rfl, rfl⟩⟩
    | failed msg => exact ⟨_, rfl, rfl, Or.inl ⟨rfl, rfl⟩⟩

/-- C17 as stated fails: for the target `/` the request that `HandleGoodRequest` leaves behind
has `URL` equal to `/index.html`. -/
theorem handleGoodRequest_changes_url :
    ∃ res, HandleGoodRequest sampleUtil (sampleEnv []) { DocRoot := "/srv/www" }
        (some { Method := "GET", URL := "/", Proto := "HTTP/1.1", Host := "a" }) =
        .ok (res, { Method := "GET", URL := "/index.html", Proto := "HTTP/1.1", Host := "a" }) ∧
      ({ Method := "GET", URL := "/index.html", Proto := "HTTP/1.1", Host := "a" } : Request).URL
        ≠ "/" :=
  ⟨_, rfl, by decide⟩

/-- C17, amended: for every request and file system, `HandleGoodRequest` leaves `Method`,
`Proto`, `Header`, `Host` and `Close` of the request unchanged, and leaves `URL` unchanged
unless it ends in a slash, in which case `index.html` is appended to it. -/
theorem handleGoodRequest_frame (u : Util) (env : Env) (s : Server) (req : Request) :
    ∃ res req', HandleGoodRequest u env s (some req) = .ok (res, req') ∧
      req'.Method = req.Method ∧ req'.Proto = req.Proto ∧ req'.Header = req.Header ∧
      req'.Host = req.Host ∧ req'.Close = req.Close ∧
      req'.URL = (if HasSuffix req.URL "/" then req.URL ++ "index.html" else req.URL) := by
  obtain ⟨res, h, -, -⟩ := HandleGoodRequest_ok u env s req
  refine ⟨res, withIndex req, h, ?_⟩
  unfold withIndex
  split_ifs <;> exact ⟨rfl, rfl, rfl, rfl, rfl, rfl⟩

/-! ## Validation of the request line -/

/-- The header loop leaves `Method`, `URL` and `Proto` of the request as they are. -/
theorem readHeaders_line_fields (canon : String → String) (b : Bool) (rd : Reader) :
    ∀ (req : Request) (m : HeaderMap) (hh : Bool) (q : Request),
      (readHeaders canon b req m hh rd).req = some q →
      q.Method = req.Method ∧ q.URL = req.URL ∧ q.Proto = req.Proto := by
  induction rd with
  | nil => intro req m hh q h; simp [readHeaders] at h
  | cons r rest ih =>
    intro req m hh q h
    rcases lineResult_cases r with ⟨e, he⟩ | ⟨he, hl⟩ | ⟨he, hl, e, hp⟩ | ha
    · rw [readHeaders_cons_err canon b req m hh r rest e he] at h; simp at h
    · rw [readHeaders_cons_empty canon b req m hh r rest he hl] at h
      cases hh
      · simp at h
      · simp at h
        subst h
        exact ⟨rfl, rfl, rfl⟩
    · rw [readHeaders_cons_bad canon b req m hh r rest e he hl hp] at h; simp at h
    · rw [readHeaders_cons_accepted canon b req m hh r rest ha] at h
      split_ifs at h
      · have := ih _ _ _ _ h
        exact this
      · have := ih _ _ _ _ h
        exact this
      · exact ih _ _ _ _ h

/-- C19: on a request line that is read and splits into three fields, an invalid method
yields the method error whatever the other two fields are, and a valid method with a target
that does not start with a slash yields the target error whatever the version is; and every
request `ReadRequest` returns has `Method = "GET"`, `Proto = "HTTP/1.1"` and a non-empty `URL`
that starts with a slash. -/
theorem readRequest_validation_order (canon : String → String) :
    (∀ (r : LineResult) (rest : Reader) (m t p : String),
        r.err = none → parseRequestLine r.line = ([m, t, p], none) → m ≠ "GET" →
        (ReadRequest canon (r :: rest)).req = none ∧
          (ReadRequest canon (r :: rest)).err = some (.invalidMethod m)) ∧
      (∀ (r : LineResult) (rest : Reader) (t p : String),
        r.err = none → parseRequestLine r.line = (["GET", t, p], none) →
        HasPrefix t "/" = false →
        (ReadRequest canon (r :: rest)).req = none ∧
          (ReadRequest canon (r :: rest)).err = some .urlNoSlash) ∧
      (∀ (br : Reader) (q : Request), (ReadRequest canon br).req = some q →
        q.Method = "GET" ∧ q.Proto = "HTTP/1.1" ∧ q.URL ≠ "" ∧ HasPrefix q.URL "/" = true) := by
  refine ⟨?_, ?_, ?_⟩
  · intro r rest m t p he hp hm
    simp [ReadRequest, ReadLine, he, hp, ValidateMethod, hm]
  · intro r rest t p he hp ht
    simp [ReadRequest, ReadLine, he, hp, ValidateMethod, ValidateURL, ht]
  · intro br q h
    cases br with
    | nil => simp [ReadRequest_nil] at h
    | cons r rest =>
      cases he : r.err with
      | some e => simp [ReadRequest_cons_err canon r rest e he] at h
      | none =>
        by_cases ha : acceptedRequestLine r.line
        · rw [ReadRequest_cons_accepted canon r rest he ha] at h
          obtain ⟨h1, h2, h3⟩ := readHeaders_line_fields canon _ rest _ _ _ q h
          obtain ⟨-, hm, hu, hp⟩ := ha
          simp only at h1 h2 h3
          rw [h1, h2, h3]
          have hm' : (parseRequestLine r.line).1.getD 0 "" = "GET" := by
            by_contra hne
            unfold ValidateMethod at hm
            rw [if_neg hne] at hm
            cases hm
          have hp' : (parseRequestLine r.line).1.getD 2 "" = "HTTP/1.1" := by
            by_contra hne
            unfold ValidateProto at hp
            rw [if_neg hne] at hp
            cases hp
          have hu' : HasPrefix ((parseRequestLine r.line).1.getD 1 "") "/" = true := by
            by_contra hne
            have hf : HasPrefix ((parseRequestLine r.line).1.getD 1 "") "/" = false := by
              simpa using hne
            unfold ValidateURL at hu
            simp only [hf] at hu
            simp at hu
          refine ⟨hm', hp', ?_, hu'⟩
          intro hempty
          rw [hempty] at hu'
          exact absurd hu' (by decide)
        · rw [(ReadRequest_cons_rejected canon r rest he ha).1] at h
          cases h

/-- C19, at the lines `PUT nowhere HTTP/0.9` and `GET nowhere HTTP/0.9`, on which two and
three validations fail, and at a request that is returned. -/
theorem readRequest_validation_order_witness :
    ((ReadRequest CanonicalHeaderKey [⟨"PUT nowhere HTTP/0.9", none⟩]).req = none ∧
        (ReadRequest CanonicalHeaderKey [⟨"PUT nowhere HTTP/0.9", none⟩]).err =
          some (.invalidMethod "PUT")) ∧
      ((ReadRequest CanonicalHeaderKey [⟨"GET nowhere HTTP/0.9", none⟩]).req = none ∧
        (ReadRequest CanonicalHeaderKey [⟨"GET nowhere HTTP/0.9", none⟩]).err =
          some .urlNoSlash) ∧
      (("GET" : String) = "GET" ∧ ("HTTP/1.1" : String) = "HTTP/1.1" ∧ ("/a" : String) ≠ "" ∧
        HasPrefix "/a" "/" = true) :=
  ⟨(readRequest_validation_order CanonicalHeaderKey).1 ⟨"PUT nowhere HTTP/0.9", none⟩ []
      "PUT" "nowhere" "HTTP/0.9" rfl (by decide) (by decide),
    (readRequest_validation_order CanonicalHeaderKey).2.1 ⟨"GET nowhere HTTP/0.9", none⟩ []
      "nowhere" "HTTP/0.9" rfl (by decide) (by decide),
    (readRequest_validation_order CanonicalHeaderKey).2.2
      [⟨"GET /a HTTP/1.1", none⟩, ⟨"Host: h", none⟩, ⟨"", none⟩]
      { Method := "GET", URL := "/a", Proto := "HTTP/1.1", Host := "h" } (by decide)⟩

/-! ## The loop of the connection handler -/

/-- Go `ReadRequest` returns a request exactly when it returns no error. -/
theorem ReadRequest_req_iff_err (canon : String → String) (br : Reader) :
    (ReadRequest canon br).err = none ↔ ∃ q, (ReadRequest canon br).req = some q := by
  cases br with
  | nil => simp [ReadRequest_nil]
  | cons r rest =>
    cases he : r.err with
    | some e => simp [ReadRequest_cons_err canon r rest e he]
    | none =>
      by_cases ha : acceptedRequestLine r.line
      · rw [ReadRequest_cons_accepted canon r rest he ha]
        obtain ⟨-, hs⟩ := readHeaders_shape canon (decide (r.line ≠ "")) rest
          { Method := (parseRequestLine r.line).1.getD 0 "",
            URL := (parseRequestLine r.line).1.getD 1 "",
            Proto := (parseRequestLine r.line).1.getD 2 "" } [] false
        rcases hs with ⟨q, hq, hn⟩ | ⟨hq, hn⟩
        · exact ⟨fun _ => ⟨q, hq⟩, fun _ => hn⟩
        · constructor
          · intro h; exact absurd h hn
          · rintro ⟨q, hq'⟩; rw [hq] at hq'; cases hq'
      · obtain ⟨h1, h2, -⟩ := ReadRequest_cons_rejected canon r rest he ha
        constructor
        · intro h; exact absurd h h2
        · rintro ⟨q, hq'⟩; rw [h1] at hq'; cases hq'

/-- One iteration of the loop on a request that was read: the response of
`HandleGoodRequest` is written, and the loop ends with a close or goes on with the next
iteration according to the request's `Close`. -/
theorem handleLoop_step_good (u : Util) (s : Server) (world : Nat → Tick) (fuel i : Nat)
    (reader : Reader) (events : List Event) (q : Request)
    (hd : (world i).deadlineOk = true) (hq : (ReadRequest u.canon reader).req = some q) :
    ∃ res, HandleGoodRequest u (world i).env s (some q) = .ok (res, withIndex q) ∧
      ((res.StatusCode = 404 ∧ res.FilePath = "") ∨
        (res.StatusCode = 200 ∧ res.FilePath = Clean (Join s.DocRoot (withIndex q).URL))) ∧
      handleLoop u s world (fuel + 1) i reader events =
        if q.Close then
          some (.returned (events ++ [.write res (world i).writeOk, .close]))
        else
          handleLoop u s world fuel (i + 1) (ReadRequest u.canon reader).rest
            (events ++ [.write res (world i).writeOk]) := by
  have herr : (ReadRequest u.canon reader).err = none :=
    (ReadRequest_req_iff_err u.canon reader).mpr ⟨q, hq⟩
  obtain ⟨res, hres, -, hst⟩ := HandleGoodRequest_ok u (world i).env s q
  refine ⟨res, hres, hst, ?_⟩
  have hc : (withIndex q).Close = q.Close := by
    unfold withIndex; split_ifs <;> rfl
  rw [handleLoop]
  simp only [hd, herr, hq, hres, errIsEOF, errIsTimeout, hc]
  cases q.Close <;> simp

/-- The bound on the iterations does not matter once it exceeds the length of the reader. -/
theorem handleLoop_fuel (u : Util) (s : Server) (world : Nat → Tick) (fuel₁ : Nat) :
    ∀ (fuel₂ i : Nat) (reader : Reader) (events : List Event),
      reader.length < fuel₁ → reader.length < fuel₂ →
      handleLoop u s world fuel₁ i reader events = handleLoop u s world fuel₂ i reader events := by
  induction fuel₁ with
  | zero => intro fuel₂ i reader events h; omega
  | succ n ih =>
    intro fuel₂ i reader events h1 h2
    cases fuel₂ with
    | zero => omega
    | succ m =>
      by_cases hd : (world i).deadlineOk = true
      · by_cases herr : (ReadRequest u.canon reader).err = none
        · obtain ⟨q, hq⟩ := (ReadRequest_req_iff_err u.canon reader).mp herr
          have hlt := ReadRequest_rest_lt u.canon reader herr
          obtain ⟨res, hres, -, e1⟩ := handleLoop_step_good u s world n i reader events q hd hq
          obtain ⟨res', hres', -, e2⟩ := handleLoop_step_good u s world m i reader events q hd hq
          have : res' = res := by
            rw [hres] at hres'
            cases hres'
            rfl
          subst this
          rw [e1, e2]
          split_ifs
          · rfl
          · exact ih _ _ _ _ (by omega) (by omega)
        · obtain ⟨e, he⟩ := Option.ne_none_iff_exists'.mp herr
          rw [handleLoop, handleLoop]
          simp only [hd, he, errIsEOF, errIsTimeout]
          simp
      · have hd' : (world i).deadlineOk = false := by simpa using hd
        rw [handleLoop, handleLoop]
        simp [hd']

/-- C11: in any iteration of the loop of `HandleConnection` in which the deadline was armed
and `ReadRequest` fails with an error that is neither end of stream nor a timeout, the handler
writes exactly one response, the 400 of `HandleBadRequest`, closes the connection and returns,
whatever the reader still holds; the errors `ReadRequest` builds itself are all of this
kind. -/
theorem handleLoop_parse_error (u : Util) (s : Server) (world : Nat → Tick) (fuel i : Nat)
    (reader : Reader) (events : List Event) (e : Error)
    (hd : (world i).deadlineOk = true)
    (he : (ReadRequest u.canon reader).err = some e)
    (h1 : e.isEOF = false) (h2 : e.isTimeout = false) :
    handleLoop u s world (fuel + 1) i reader events =
        some (.returned (events ++
          [.write (HandleBadRequest u (world i).env {}) (world i).writeOk, .close])) ∧
      (HandleBadRequest u (world i).env {}).StatusCode = 400 ∧
      (∀ e' ∈ [Error.wrongFields [], .invalidMethod "", .urlNoSlash, .missingURL,
          .invalidProto "", .emptyKey, .invalidKey, .noHost],
        e'.isEOF = false ∧ e'.isTimeout = false) := by
  refine ⟨?_, rfl, by decide⟩
  rw [handleLoop]
  simp only [hd, he, errIsEOF, errIsTimeout, h1, h2]
  simp

/-- C11, at a request without `Host`, followed by a well-formed request that is never
read. -/
theorem handleLoop_parse_error_witness :
    (sampleWorld 0).deadlineOk = true ∧
      (ReadRequest sampleUtil.canon
        [⟨"GET / HTTP/1.1", none⟩, ⟨"", none⟩, ⟨"GET / HTTP/1.1", none⟩, ⟨"Host: a", none⟩,
          ⟨"", none⟩]).err = some .noHost ∧
      HandleConnection sampleUtil {} sampleWorld
          [⟨"GET / HTTP/1.1", none⟩, ⟨"", none⟩, ⟨"GET / HTTP/1.1", none⟩, ⟨"Host: a", none⟩,
            ⟨"", none⟩] =
        some (.returned [.write
          { Proto := "HTTP/1.1", StatusCode := 400,
            Header := [("Date", "0"), ("Connection", "close")] } true, .close]) :=
  ⟨rfl, by decide,
    (handleLoop_parse_error sampleUtil {} sampleWorld 5 0
      [⟨"GET / HTTP/1.1", none⟩, ⟨"", none⟩, ⟨"GET / HTTP/1.1", none⟩, ⟨"Host: a", none⟩,
        ⟨"", none⟩] [] .noHost rfl (by decide) rfl rfl).1⟩

/-- C20: in any iteration of the loop of `HandleConnection` in which the deadline was armed
and `ReadRequest` fails with `io.EOF`, the handler closes the connection and returns without
writing a response, whether `bytesReceived` is true or false. -/
theorem handleLoop_eof (u : Util) (s : Server) (world : Nat → Tick) (fuel i : Nat)
    (reader : Reader) (events : List Event) (e : Error)
    (hd : (world i).deadlineOk = true)
    (he : (ReadRequest u.canon reader).err = some e) (h1 : e.isEOF = true) :
    handleLoop u s world (fuel + 1) i reader events =
      some (.returned (events ++ [.close])) := by
  rw [handleLoop]
  simp only [hd, he, errIsEOF, h1]
  simp

/-- C20, at a connection that the peer closes after the request line: bytes were received, and
nothing is written. -/
theorem handleLoop_eof_witness :
    (sampleWorld 0).deadlineOk = true ∧
      (ReadRequest sampleUtil.canon [⟨"GET / HTTP/1.1", none⟩]).err = some .eof ∧
      (ReadRequest sampleUtil.canon [⟨"GET / HTTP/1.1", none⟩]).bytesReceived = true ∧
      HandleConnection sampleUtil {} sampleWorld [⟨"GET / HTTP/1.1", none⟩] =
        some (.returned [.close]) :=
  ⟨rfl, by decide, by decide,
    handleLoop_eof sampleUtil {} sampleWorld 1 0 [⟨"GET / HTTP/1.1", none⟩] [] .eof rfl
      (by decide) rfl⟩

/-- C12: in any iteration of the loop of `HandleConnection` in which the deadline was armed
and `ReadRequest` returns a request, `HandleGoodRequest` answers with a 200 or a 404, the
response is written (whether or not the write succeeds), and then the handler closes the
connection and returns if the request's `Close` is true, and otherwise goes on with the next
iteration on what is left of the reader, without closing. -/
theorem handleLoop_close_or_loop (u : Util) (s : Server) (world : Nat → Tick) (fuel i : Nat)
    (reader : Reader) (events : List Event) (q : Request)
    (hf : reader.length < fuel) (hd : (world i).deadlineOk = true)
    (hq : (ReadRequest u.canon reader).req = some q) :
    ∃ res, HandleGoodRequest u (world i).env s (some q) = .ok (res, withIndex q) ∧
      (res.StatusCode = 200 ∨ res.StatusCode = 404) ∧
      (ReadRequest u.canon reader).rest.length < reader.length ∧
      handleLoop u s world fuel i reader events =
        if q.Close then
          some (.returned (events ++ [.write res (world i).writeOk, .close]))
        else
          handleLoop u s world fuel (i + 1) (ReadRequest u.canon reader).rest
            (events ++ [.write res (world i).writeOk]) := by
  have herr : (ReadRequest u.canon reader).err = none :=
    (ReadRequest_req_iff_err u.canon reader).mpr ⟨q, hq⟩
  have hlt := ReadRequest_rest_lt u.canon reader herr
  cases fuel with
  | zero => omega
  | succ n =>
    obtain ⟨res, hres, hst, hloop⟩ := handleLoop_step_good u s world n i reader events q hd hq
    refine ⟨res, hres, ?_, hlt, ?_⟩
    · rcases hst with h | h
      · exact Or.inr h.1
      · exact Or.inl h.1
    · rw [hloop]
      split_ifs
      · rfl
      · exact handleLoop_fuel u s world n (n + 1) (i + 1) _ _ (by omega) (by omega)

/-- C12, at a connection with two requests that do not ask to close and a failing write of
the first response: both are answered, in order, and the connection is closed only at the end
of the stream. -/
theorem handleLoop_close_or_loop_witness :
    (flakyWorld 0).deadlineOk = true ∧
      (ReadRequest sampleUtil.canon
        [⟨"GET / HTTP/1.1", none⟩, ⟨"Host: a", none⟩, ⟨"", none⟩,
          ⟨"GET /nope HTTP/1.1", none⟩, ⟨"Host: a", none⟩, ⟨"", none⟩]).req =
        some { Method := "GET", URL := "/", Proto := "HTTP/1.1", Host := "a" } ∧
      (∃ res, HandleGoodRequest sampleUtil (flakyWorld 0).env { DocRoot := "/srv/www" }
            (some { Method := "GET", URL := "/", Proto := "HTTP/1.1", Host := "a" }) =
          .ok (res, withIndex { Method := "GET", URL := "/", Proto := "HTTP/1.1", Host := "a" }) ∧
        (res.StatusCode = 200 ∨ res.StatusCode = 404) ∧
        (ReadRequest sampleUtil.canon
          [⟨"GET / HTTP/1.1", none⟩, ⟨"Host: a", none⟩, ⟨"", none⟩,
            ⟨"GET /nope HTTP/1.1", none⟩, ⟨"Host: a", none⟩, ⟨"", none⟩]).rest.length < 6 ∧
        handleLoop sampleUtil { DocRoot := "/srv/www" } flakyWorld 7 0
            [⟨"GET / HTTP/1.1", none⟩, ⟨"Host: a", none⟩, ⟨"", none⟩,
              ⟨"GET /nope HTTP/1.1", none⟩, ⟨"Host: a", none⟩, ⟨"", none⟩] [] =
          handleLoop sampleUtil { DocRoot := "/srv/www" } flakyWorld 7 1
            [⟨"GET /nope HTTP/1.1", none⟩, ⟨"Host: a", none⟩, ⟨"", none⟩]
            [.write res false]) ∧
      HandleConnection sampleUtil { DocRoot := "/srv/www" } flakyWorld
          [⟨"GET / HTTP/1.1", none⟩, ⟨"Host: a", none⟩, ⟨"", none⟩,
            ⟨"GET /nope HTTP/1.1", none⟩, ⟨"Host: a", none⟩, ⟨"", none⟩] =
        some (.returned
          [.write
            { Proto := "HTTP/1.1", StatusCode := 200, FilePath := "/srv/www/index.html",
              Request := some
                { Method := "GET", URL := "/index.html", Proto := "HTTP/1.1", Host := "a" },
              Header := [("Date", "0"), ("Last-Modified", "0"), ("Content-Type", "text/html"),
                ("Content-Length", "5")] } false,
            .write
            { Proto := "HTTP/1.1", StatusCode := 404,
              Request := some
                { Method := "GET", URL := "/nope", Proto := "HTTP/1.1", Host := "a" },
              Header := [("Date", "0")] } true,
            .close]) :=
  ⟨rfl, by decide,
    handleLoop_close_or_loop sampleUtil { DocRoot := "/srv/www" } flakyWorld 7 0
      [⟨"GET / HTTP/1.1", none⟩, ⟨"Host: a", none⟩, ⟨"", none⟩,
        ⟨"GET /nope HTTP/1.1", none⟩, ⟨"Host: a", none⟩, ⟨"", none⟩] []
      { Method := "GET", URL := "/", Proto := "HTTP/1.1", Host := "a" }
      (by decide) rfl (by decide),
    by decide⟩

/-! ## Lemmas on `filepath.Clean` and `filepath.Rel` -/

theorem splitAll_ne_nil (sep : Char) (s : List Char) : splitAll sep s ≠ [] := by
  intro h
  have := splitAll_length_pos sep s
  rw [h] at this
  simp at this

theorem splitAll_append_sep (sep : Char) (a b : List Char) :
    splitAll sep (a ++ sep :: b) = splitAll sep a ++ splitAll sep b := by
  induction a with
  | nil => simp [splitAll]
  | cons c cs ih =>
    by_cases hc : c = sep
    · simp [splitAll, hc, ih]
    · cases hs : splitAll sep cs with
      | nil => exact absurd hs (splitAll_ne_nil sep cs)
      | cons w ws => simp [splitAll, hc, ih, hs]

theorem splitAll_no_sep (sep : Char) (s : List Char) : ∀ w ∈ splitAll sep s, sep ∉ w := by
  induction s with
  | nil => simp [splitAll]
  | cons c cs ih =>
    by_cases hc : c = sep
    · intro w hw
      simp only [splitAll, hc, if_true, List.mem_cons] at hw
      rcases hw with rfl | hw
      · simp
      · exact ih w hw
    · cases hs : splitAll sep cs with
      | nil => exact absurd hs (splitAll_ne_nil sep cs)
      | cons v vs =>
        rw [hs] at ih
        intro w hw
        simp only [splitAll, hc, if_false, hs, List.mem_cons] at hw
        rcases hw with rfl | hw
        · have hv := ih v (List.mem_cons_self _ _)
          have hc' : ¬ sep = c := fun e => hc e.symm
          simp [hc', hv]
        · exact ih w (List.mem_cons_of_mem _ hw)

theorem splitAll_joinSlash (N : List (List Char)) (hne : N ≠ [])
    (hN : ∀ w ∈ N, '/' ∉ w) : splitAll '/' (joinSlash N) = N := by
  induction N with
  | nil => exact absurd rfl hne
  | cons w ws ih =>
    cases ws with
    | nil =>
      simp only [joinSlash]
      exact splitAll_of_not_mem (hN w (List.mem_cons_self _ _))
    | cons v vs =>
      simp only [joinSlash]
      rw [splitAll_append_sep, splitAll_of_not_mem (hN w (List.mem_cons_self _ _)),
        ih (by simp) (fun x hx => hN x (List.mem_cons_of_mem _ hx))]
      rfl

theorem cleanStep_norm (rooted : Bool) (out : List (List Char)) (el : List Char)
    (hout : normStack rooted out) (hel : '/' ∉ el) :
    normStack rooted (cleanStep rooted out el) := by
  unfold cleanStep
  by_cases h1 : el = [] ∨ el = ['.']
  · rw [if_pos h1]
    exact hout
  · rw [if_neg h1]
    have h1a : el ≠ [] := fun h => h1 (Or.inl h)
    have h1b : el ≠ ['.'] := fun h => h1 (Or.inr h)
    by_cases h2 : el = ['.', '.']
    · rw [if_pos h2]
      cases out with
      | nil =>
        cases rooted
        · simp [normStack, h2]
        · simp [normStack]
      | cons top below =>
        simp only []
        by_cases h3 : top = ['.', '.']
        · rw [if_neg (not_not.mpr h3)]
          obtain ⟨hr, hall⟩ := hout.2.2.2.1 h3
          rw [normStack]
          refine ⟨h1a, hel, h1b, fun _ => ⟨hr, ?_⟩, hout⟩
          intro x hx
          rcases List.mem_cons.mp hx with rfl | hx
          · exact h3
          · exact hall x hx
        · rw [if_pos h3]
          exact hout.2.2.2.2
    · rw [if_neg h2, normStack]
      exact ⟨h1a, hel, h1b, fun h => absurd h h2, hout⟩

theorem foldl_cleanStep_norm (rooted : Bool) (els : List (List Char)) :
    ∀ out, normStack rooted out → (∀ w ∈ els, '/' ∉ w) →
      normStack rooted (els.foldl (cleanStep rooted) out) := by
  induction els with
  | nil => intro out h _; exact h
  | cons e es ih =>
    intro out h hes
    exact ih _ (cleanStep_norm rooted out e h (hes e (List.mem_cons_self _ _)))
      (fun w hw => hes w (List.mem_cons_of_mem _ hw))

theorem normStack_mem (rooted : Bool) (S : List (List Char)) (h : normStack rooted S) :
    ∀ w ∈ S, w ≠ [] ∧ '/' ∉ w ∧ w ≠ ['.'] := by
  induction S with
  | nil => simp
  | cons top below ih =>
    intro w hw
    rcases List.mem_cons.mp hw with rfl | hw
    · exact ⟨h.1, h.2.1, h.2.2.1⟩
    · exact ih h.2.2.2.2 w hw

theorem foldl_cleanStep_reverse (rooted : Bool) (S : List (List Char))
    (h : normStack rooted S) : S.reverse.foldl (cleanStep rooted) [] = S := by
  induction S with
  | nil => rfl
  | cons top below ih =>
    obtain ⟨h1, -, h3, h4, h5⟩ := h
    rw [List.reverse_cons, List.foldl_append, ih h5]
    simp only [List.foldl_cons, List.foldl_nil]
    unfold cleanStep
    rw [if_neg (by simp [h1, h3])]
    by_cases hdd : top = ['.', '.']
    · obtain ⟨hr, hall⟩ := h4 hdd
      rw [if_pos hdd]
      cases below with
      | nil => simp [hr]
      | cons t bs =>
        have ht : t = ['.', '.'] := hall t (List.mem_cons_self _ _)
        simp [ht]
    · rw [if_neg hdd]

theorem Clean_of_ne (path : String) (h : path ≠ "") :
    Clean path = renderClean (HasPrefix path "/")
      (((splitAll '/' path.data).foldl (cleanStep (HasPrefix path "/")) []).reverse) := by
  simp only [Clean, renderClean, h, if_false]

theorem joinSlash_cons_head (c : Char) (w : List Char) (ws : List (List Char)) :
    ∃ t, joinSlash ((c :: w) :: ws) = c :: t := by
  cases ws with
  | nil => exact ⟨w, rfl⟩
  | cons v vs => exact ⟨w ++ '/' :: joinSlash (v :: vs), rfl⟩

/-- The text of a non-empty list of kept elements starts with a character that is not a
slash. -/
theorem joinSlash_head (N : List (List Char)) (hne : N ≠ [])
    (hN : ∀ w ∈ N, w ≠ [] ∧ '/' ∉ w) : ∃ c t, joinSlash N = c :: t ∧ c ≠ '/' := by
  cases N with
  | nil => exact absurd rfl hne
  | cons w ws =>
    obtain ⟨hw1, hw2⟩ := hN w (List.mem_cons_self _ _)
    cases w with
    | nil => exact absurd rfl hw1
    | cons c w' =>
      obtain ⟨t, ht⟩ := joinSlash_cons_head c w' ws
      refine ⟨c, t, ht, ?_⟩
      rintro rfl
      exact hw2 (List.mem_cons_self _ _)

/-- Go `filepath.Clean` leaves the text of a non-empty normal list of elements as it is. -/
theorem Clean_renderClean (rooted : Bool) (S : List (List Char)) (h : normStack rooted S)
    (hne : S ≠ []) : Clean (renderClean rooted S.reverse) = renderClean rooted S.reverse := by
  have hmem : ∀ w ∈ S.reverse, w ≠ [] ∧ '/' ∉ w := fun w hw =>
    ⟨(normStack_mem rooted S h w (List.mem_reverse.mp hw)).1,
      (normStack_mem rooted S h w (List.mem_reverse.mp hw)).2.1⟩
  have hne' : S.reverse ≠ [] := by simpa using hne
  have hsplit : splitAll '/' (joinSlash S.reverse) = S.reverse :=
    splitAll_joinSlash _ hne' (fun w hw => (hmem w hw).2)
  obtain ⟨c, t, hct, hc⟩ := joinSlash_head S.reverse hne' hmem
  cases rooted with
  | true =>
    have hp : (⟨'/' :: joinSlash S.reverse⟩ : String) ≠ "" := by
      intro hh
      have := congrArg String.data hh
      simp at this
    have hpre : HasPrefix ⟨'/' :: joinSlash S.reverse⟩ "/" = true := by
      simp [HasPrefix]
    have hr : renderClean true S.reverse = ⟨'/' :: joinSlash S.reverse⟩ := by
      simp [renderClean]
    rw [hr, Clean_of_ne _ hp, hpre]
    have hs : splitAll '/' ('/' :: joinSlash S.reverse) = [] :: S.reverse := by
      simp [splitAll, hsplit]
    simp only [hs, List.foldl_cons]
    have h0 : cleanStep true [] [] = [] := by simp [cleanStep]
    rw [h0, foldl_cleanStep_reverse true S h, hr]
  | false =>
    have hp : (⟨joinSlash S.reverse⟩ : String) ≠ "" := by
      intro hh
      have := congrArg String.data hh
      rw [hct] at this
      simp at this
    have hpre : HasPrefix ⟨joinSlash S.reverse⟩ "/" = false := by
      have hc' : ¬ '/' = c := fun e => hc e.symm
      simp [HasPrefix, hct, List.isPrefixOf, hc']
    have hr : renderClean false S.reverse = ⟨joinSlash S.reverse⟩ := by
      simp [renderClean, hne]
    rw [hr, Clean_of_ne _ hp, hpre]
    simp only [hsplit]
    rw [foldl_cleanStep_reverse false S h, hr]

/-- The loop of `filepath.Rel` on a base and a target that continues the base with one more
element: the relative path is that element. -/
theorem relLoop_append_one (x : List Char) (R : List (List Char))
    (hR : ∀ w ∈ R, w ≠ []) : relLoop R (R ++ [x]) = some ⟨x⟩ := by
  induction R with
  | nil => simp [relLoop, relFinish, restEmpty, joinSlash]
  | cons r rs ih =>
    have hr : r ≠ [] := hR r (List.mem_cons_self _ _)
    have ih' := ih (fun w hw => hR w (List.mem_cons_of_mem _ hw))
    rw [List.cons_append, relLoop]
    have e1 : restEmpty (r :: rs) = false := by simp [restEmpty, hr]
    have e2 : restEmpty (r :: (rs ++ [x])) = false := by simp [restEmpty, hr]
    simp [e1, e2, ih']

theorem String_data_ne_nil {D : String} (h : D ≠ "") : D.data ≠ [] := by
  intro hd
  apply h
  apply String.ext
  simpa using hd

theorem HasPrefix_slash_append (D Y : String) (h : D ≠ "") :
    HasPrefix (D ++ Y) "/" = HasPrefix D "/" := by
  have hd := String_data_ne_nil h
  cases hdd : D.data with
  | nil => exact absurd hdd hd
  | cons c cs => simp [HasPrefix, String.data_append, hdd, List.isPrefixOf]

theorem String_append_ne_empty (D Y : String) (h : D ≠ "") : D ++ Y ≠ "" := by
  intro hh
  have := congrArg String.data hh
  simp [String.data_append] at this
  exact String_data_ne_nil h this.1

/-- The elements `filepath.Clean` keeps of a path are normal. -/
theorem cleanElems_norm (rooted : Bool) (d : List Char) :
    normStack rooted ((splitAll '/' d).foldl (cleanStep rooted) []) :=
  foldl_cleanStep_norm rooted _ [] trivial (splitAll_no_sep '/' d)

/-- Go `filepath.Clean` of a non-empty path followed by a slash, possibly a second slash, and
one more element that is neither `.` nor `..`: the elements kept of the path, then that
element. -/
theorem Clean_append_elem (D : String) (hD : D ≠ "") (x : List Char)
    (hx1 : x ≠ []) (hx2 : '/' ∉ x) (hx3 : x ≠ ['.']) (hx4 : x ≠ ['.', '.']) :
    Clean (D ++ ⟨'/' :: x⟩) = renderClean (HasPrefix D "/")
        (((splitAll '/' D.data).foldl (cleanStep (HasPrefix D "/")) []).reverse ++ [x]) ∧
      Clean (D ++ "/" ++ ⟨'/' :: x⟩) = renderClean (HasPrefix D "/")
        (((splitAll '/' D.data).foldl (cleanStep (HasPrefix D "/")) []).reverse ++ [x]) := by
  have hstep : ∀ out, cleanStep (HasPrefix D "/") out x = x :: out := by
    intro out
    unfold cleanStep
    rw [if_neg (by simp [hx1, hx3]), if_neg hx4]
  have hskip : ∀ out, cleanStep (HasPrefix D "/") out [] = out := by
    intro out
    simp [cleanStep]
  constructor
  · rw [Clean_of_ne _ (String_append_ne_empty D _ hD), HasPrefix_slash_append D _ hD]
    simp only [String.data_append]
    rw [splitAll_append_sep, splitAll_of_not_mem hx2, List.foldl_append]
    simp only [List.foldl_cons, List.foldl_nil, hstep, List.reverse_cons]
  · have hne : D ++ "/" ++ ⟨'/' :: x⟩ ≠ "" := by
      rw [String.append_assoc]
      exact String_append_ne_empty D _ hD
    have hpre : HasPrefix (D ++ "/" ++ ⟨'/' :: x⟩) "/" = HasPrefix D "/" := by
      rw [String.append_assoc]
      exact HasPrefix_slash_append D _ hD
    rw [Clean_of_ne _ hne, hpre]
    have hdata : (D ++ "/" ++ (⟨'/' :: x⟩ : String)).data = D.data ++ '/' :: ([] ++ '/' :: x) := by
      simp [String.data_append]
    rw [hdata, splitAll_append_sep, splitAll_append_sep, splitAll_of_not_mem hx2,
      List.foldl_append]
    simp only [splitAll, List.foldl_cons, List.foldl_nil, List.cons_append, List.nil_append,
      hstep, hskip, List.reverse_cons]

theorem HasPrefix_joinSlash (N : List (List Char)) (hne : N ≠ [])
    (hN : ∀ w ∈ N, w ≠ [] ∧ '/' ∉ w) : HasPrefix ⟨joinSlash N⟩ "/" = false := by
  obtain ⟨c, t, hct, hc⟩ := joinSlash_head N hne hN
  have hc' : ¬ '/' = c := fun e => hc e.symm
  simp [HasPrefix, hct, List.isPrefixOf, hc']

theorem joinSlash_append_ne (R : List (List Char)) (x : List Char)
    (hR : ∀ w ∈ R, '/' ∉ w) (hx1 : x ≠ []) (hx2 : '/' ∉ x) :
    joinSlash (R ++ [x]) ≠ joinSlash R := by
  intro h
  by_cases hne : R = []
  · subst hne
    simp [joinSlash] at h
    exact hx1 h
  · have h1 := splitAll_joinSlash (R ++ [x]) (by simp) (by
      intro w hw
      rcases List.mem_append.mp hw with hw | hw
      · exact hR w hw
      · rw [List.mem_singleton.mp hw]; exact hx2)
    have h2 := splitAll_joinSlash R hne hR
    rw [h, h2] at h1
    have := congrArg List.length h1
    simp at this

/-- Go `filepath.Rel` from a non-empty path to that path continued with one more element,
cleaned: the relative path is that element. -/
theorem Rel_append_elem (D : String) (hD : D ≠ "") (x : List Char)
    (hx1 : x ≠ []) (hx2 : '/' ∉ x) (hx3 : x ≠ ['.']) (hx4 : x ≠ ['.', '.']) :
    Rel D (renderClean (HasPrefix D "/")
      (((splitAll '/' D.data).foldl (cleanStep (HasPrefix D "/")) []).reverse ++ [x])) =
      some ⟨x⟩ := by
  have hS := cleanElems_norm (HasPrefix D "/") D.data
  have hCD := Clean_of_ne D hD
  generalize HasPrefix D "/" = rooted at hS hCD ⊢
  generalize (splitAll '/' D.data).foldl (cleanStep rooted) [] = S at hS hCD ⊢
  have hxS : normStack rooted (x :: S) := ⟨hx1, hx2, hx3, fun h => absurd h hx4, hS⟩
  have hCP := Clean_renderClean rooted (x :: S) hxS (by simp)
  rw [List.reverse_cons] at hCP
  have hRmem : ∀ w ∈ S.reverse, w ≠ [] ∧ '/' ∉ w ∧ w ≠ ['.'] := fun w hw =>
    normStack_mem rooted S hS w (List.mem_reverse.mp hw)
  have hRx : ∀ w ∈ S.reverse ++ [x], w ≠ [] ∧ '/' ∉ w := by
    intro w hw
    rcases List.mem_append.mp hw with hw | hw
    · exact ⟨(hRmem w hw).1, (hRmem w hw).2.1⟩
    · rw [List.mem_singleton.mp hw]; exact ⟨hx1, hx2⟩
  have hjne := joinSlash_append_ne S.reverse x (fun w hw => (hRmem w hw).2.1) hx1 hx2
  have hsx : splitAll '/' (joinSlash (S.reverse ++ [x])) = S.reverse ++ [x] :=
    splitAll_joinSlash _ (by simp) (fun w hw => (hRx w hw).2)
  have hloop := relLoop_append_one x S.reverse (fun w hw => (hRmem w hw).1)
  generalize S.reverse = R at hCD hCP hRmem hRx hjne hsx hloop ⊢
  unfold Rel
  simp only [hCD, hCP]
  cases rooted with
  | true =>
    have hB : renderClean true R = ⟨'/' :: joinSlash R⟩ := by simp [renderClean]
    have hP : renderClean true (R ++ [x]) = ⟨'/' :: joinSlash (R ++ [x])⟩ := by
      simp [renderClean]
    have hne : (⟨'/' :: joinSlash (R ++ [x])⟩ : String) ≠ ⟨'/' :: joinSlash R⟩ := by
      intro h
      have := congrArg String.data h
      simp at this
      exact hjne this
    have hdot : (⟨'/' :: joinSlash R⟩ : String) ≠ "." := by
      intro h
      have := congrArg String.data h
      simp at this
    have hp1 : HasPrefix ⟨'/' :: joinSlash R⟩ "/" = true := by simp [HasPrefix]
    have hp2 : HasPrefix ⟨'/' :: joinSlash (R ++ [x])⟩ "/" = true := by simp [HasPrefix]
    rw [hB, hP, if_neg hne]
    simp only [hdot, if_false, hp1, hp2, ne_eq, not_true_eq_false]
    have hs1 : splitAll '/' ('/' :: joinSlash (R ++ [x])) = [] :: (R ++ [x]) := by
      simp [splitAll, hsx]
    rw [hs1]
    by_cases hR0 : R = []
    · subst hR0
      simp [splitAll, joinSlash, relLoop, restEmpty, relFinish]
    · have hs2 : splitAll '/' ('/' :: joinSlash R) = [] :: R := by
        simp [splitAll, splitAll_joinSlash R hR0 (fun w hw => (hRmem w hw).2.1)]
      rw [hs2, relLoop]
      have e1 : restEmpty ([] :: R) = false := by simp [restEmpty, hR0]
      have e2 : restEmpty ([] :: (R ++ [x])) = false := by simp [restEmpty]
      simp [e1, e2, hloop]
  | false =>
    have hP : renderClean false (R ++ [x]) = ⟨joinSlash (R ++ [x])⟩ := by
      simp [renderClean]
    have hp2 : HasPrefix ⟨joinSlash (R ++ [x])⟩ "/" = false :=
      HasPrefix_joinSlash _ (by simp) hRx
    rw [hP]
    by_cases hR0 : R = []
    · subst hR0
      have hB : renderClean false [] = "." := by simp [renderClean]
      have hne : (⟨joinSlash ([] ++ [x])⟩ : String) ≠ "." := by
        intro h
        have := congrArg String.data h
        simp [joinSlash] at this
        exact hx3 this
      have hp0 : HasPrefix "" "/" = false := by decide
      rw [hB, if_neg hne]
      simp only [if_true, hp0, hp2, ne_eq, not_true_eq_false, if_false]
      have hsx' : splitAll '/' (joinSlash ([] ++ [x])) = [x] := by simpa using hsx
      have hs0 : splitAll '/' ("" : String).data = [[]] := by decide
      rw [hsx', hs0]
      simp [relLoop, restEmpty, relFinish, joinSlash]
    · have hB : renderClean false R = ⟨joinSlash R⟩ := by simp [renderClean, hR0]
      have hs2 := splitAll_joinSlash R hR0 (fun w hw => (hRmem w hw).2.1)
      have hne : (⟨joinSlash (R ++ [x])⟩ : String) ≠ ⟨joinSlash R⟩ := by
        intro h
        have := congrArg String.data h
        simp at this
        exact hjne this
      have hdot : (⟨joinSlash R⟩ : String) ≠ "." := by
        intro h
        have hd : joinSlash R = ['.'] := by
          have := congrArg String.data h
          simpa using this
        rw [hd] at hs2
        have hR1 : R = [['.']] := by
          rw [← hs2]
          decide
        have := (hRmem ['.'] (by rw [hR1]; simp)).2.2
        exact this rfl
      have hp1 : HasPrefix ⟨joinSlash R⟩ "/" = false :=
        HasPrefix_joinSlash R hR0 (fun w hw => ⟨(hRmem w hw).1, (hRmem w hw).2.1⟩)
      rw [hB, if_neg hne]
      simp only [hdot, if_false, hp1, hp2, ne_eq, not_true_eq_false]
      rw [hs2, hsx]
      exact hloop

theorem HasSuffix_index (t : String) : HasSuffix (t ++ "index.html") "/" = false := by
  have h : ("index.html" : String).data = ['i', 'n', 'd', 'e', 'x', '.', 'h', 't', 'm', 'l'] := rfl
  have h' : ("/" : String).data = ['/'] := rfl
  simp [HasSuffix, String.data_append, h, h', List.isSuffixOf, List.isPrefixOf]

/-- The path `HandleGoodRequest` resolves the target `/index.html` to is the cleaned text of
the document root followed by `/index.html`, and the guard against leaving the document root
does not fire on it. -/
theorem resolve_index (D : String) :
    Clean (Join D "/index.html") = Clean (D ++ "/index.html") ∧
      HasPrefix ((Rel D (Clean (Join D "/index.html"))).getD "") "../" = false := by
  by_cases hD : D = ""
  · subst hD
    decide
  · have hx1 : ("index.html" : String).data ≠ [] := by decide
    have hx2 : '/' ∉ ("index.html" : String).data := by decide
    have hx3 : ("index.html" : String).data ≠ ['.'] := by decide
    have hx4 : ("index.html" : String).data ≠ ['.', '.'] := by decide
    obtain ⟨h1, h2⟩ := Clean_append_elem D hD _ hx1 hx2 hx3 hx4
    have hrel := Rel_append_elem D hD _ hx1 hx2 hx3 hx4
    have hS := cleanElems_norm (HasPrefix D "/") D.data
    have hidem := Clean_renderClean (HasPrefix D "/")
      (("index.html" : String).data :: (splitAll '/' D.data).foldl (cleanStep (HasPrefix D "/")) [])
      ⟨hx1, hx2, hx3, fun h => absurd h hx4, hS⟩ (by simp)
    rw [List.reverse_cons] at hidem
    have e1 : (⟨'/' :: ("index.html" : String).data⟩ : String) = "/index.html" := rfl
    rw [e1] at h1 h2
    have hj : Join D "/index.html" = Clean (D ++ "/" ++ "/index.html") := by
      simp [Join, hD]
    rw [hj, h2, hidem, h1, hrel]
    exact ⟨rfl, by decide⟩

/-- C13: a request whose target ends in a slash is handled as the request for the target
followed by `index.html`; and for the target `/` the request is resolved to `index.html` in the
document root (the cleaned text of `DocRoot/index.html`): the response is a 200 bound to that
path when `os.Stat` finds a file there that is not a directory, and a 404 with empty
`FilePath` when it finds a directory or fails. -/
theorem handleGoodRequest_index (u : Util) (env : Env) (s : Server) (req : Request)
    (hurl : req.URL = "/") :
    (∀ r : Request, HasSuffix r.URL "/" = true →
        HandleGoodRequest u env s (some r) =
          HandleGoodRequest u env s (some { r with URL := r.URL ++ "index.html" })) ∧
      ∃ res, HandleGoodRequest u env s (some req) =
          .ok (res, { req with URL := "/index.html" }) ∧
        (∀ fi, env.stat (Clean (s.DocRoot ++ "/index.html")) = .ok fi → fi.isDir = false →
          res.StatusCode = 200 ∧ res.FilePath = Clean (s.DocRoot ++ "/index.html")) ∧
        (∀ fi, env.stat (Clean (s.DocRoot ++ "/index.html")) = .ok fi → fi.isDir = true →
          res.StatusCode = 404 ∧ res.FilePath = "") ∧
        ((∀ fi, env.stat (Clean (s.DocRoot ++ "/index.html")) ≠ .ok fi) →
          res.StatusCode = 404 ∧ res.FilePath = "") := by
  constructor
  · intro r hr
    unfold HandleGoodRequest
    simp only [hr, HasSuffix_index, if_true, Bool.false_eq_true, if_false]
  · obtain ⟨hpath, hguard⟩ := resolve_index s.DocRoot
    rw [hpath] at hguard
    have hw : withIndex req = { req with URL := "/index.html" } := by
      unfold withIndex
      rw [hurl]
      rfl
    unfold HandleGoodRequest
    simp only []
    rw [show (if HasSuffix req.URL "/" = true then
      { req with URL := req.URL ++ "index.html" } else req) = withIndex req from rfl, hw]
    simp only [hpath, hguard, Bool.false_eq_true, if_false]
    cases hst : env.stat (Clean (s.DocRoot ++ "/index.html")) with
    | ok f =>
      simp only []
      cases hd : f.isDir with
      | true =>
        refine ⟨_, rfl, ?_, ?_, ?_⟩
        · intro fi hfi hfd
          cases hfi
          rw [hd] at hfd
          cases hfd
        · intro fi _ _
          exact ⟨rfl, rfl⟩
        · intro hno
          exact absurd rfl (hno f)
      | false =>
        simp only [HandleOK, hst, Bool.false_eq_true, if_false]
        refine ⟨_, rfl, ?_, ?_, ?_⟩
        · intro fi _ _
          exact ⟨rfl, rfl⟩
        · intro fi hfi hfd
          cases hfi
          rw [hd] at hfd
          cases hfd
        · intro hno
          exact absurd rfl (hno f)
    | notExist =>
      refine ⟨_, rfl, ?_, ?_, ?_⟩
      · intro fi hfi; cases hfi
      · intro fi hfi; cases hfi
      · intro _; exact ⟨rfl, rfl⟩
    | failed msg =>
      refine ⟨_, rfl, ?_, ?_, ?_⟩
      · intro fi hfi; cases hfi
      · intro fi hfi; cases hfi
      · intro _; exact ⟨rfl, rfl⟩

/-- C13, at the document root `/srv/www`: with `/srv/www/index.html` present the target `/`
gets a 200 bound to it, without it a 404; and the target `/docs/` is handled as
`/docs/index.html`. -/
theorem handleGoodRequest_index_witness :
    ({ URL := "/" } : Request).URL = "/" ∧
      (∃ res, HandleGoodRequest sampleUtil (sampleEnv ["/srv/www/index.html"])
          { DocRoot := "/srv/www" } (some { URL := "/" }) = .ok (res, { URL := "/index.html" }) ∧
        res.StatusCode = 200 ∧ res.FilePath = "/srv/www/index.html") ∧
      (∃ res, HandleGoodRequest sampleUtil (sampleEnv [])
          { DocRoot := "/srv/www" } (some { URL := "/" }) = .ok (res, { URL := "/index.html" }) ∧
        res.StatusCode = 404 ∧ res.FilePath = "") ∧
      HandleGoodRequest sampleUtil (sampleEnv []) { DocRoot := "/srv/www" }
          (some { URL := "/docs/" }) =
        HandleGoodRequest sampleUtil (sampleEnv []) { DocRoot := "/srv/www" }
          (some { URL := "/docs/index.html" }) := by
  refine ⟨rfl, ?_, ?_, ?_⟩
  · obtain ⟨res, h, h200, -, -⟩ := (handleGoodRequest_index sampleUtil
      (sampleEnv ["/srv/www/index.html"]) { DocRoot := "/srv/www" } { URL := "/" } rfl).2
    exact ⟨res, h, h200 ⟨false, 5, 0⟩ (by decide) rfl⟩
  · obtain ⟨res, h, -, -, h404⟩ := (handleGoodRequest_index sampleUtil
      (sampleEnv []) { DocRoot := "/srv/www" } { URL := "/" } rfl).2
    exact ⟨res, h, h404 (fun fi hfi => by simp [sampleEnv] at hfi)⟩
  · exact (handleGoodRequest_index sampleUtil (sampleEnv []) { DocRoot := "/srv/www" }
      { URL := "/" } rfl).1 { URL := "/docs/" } (by decide)

end TritonHTTP
